import Mathlib

/-!
Shallow embedding of the hashtable map implemented in
`sys/dev/ebpf/ebpf_map_hashtable.c` (generic-ebpf), together with proofs
about its sequential behaviour.

Modelling conventions:
* Byte buffers are `List Nat`.
* The external jenkins hash is a parameter `hashf : List Nat → Nat`; the code
  truncates its digest to 32 bits, modelled by `% 2 ^ 32`.
* The slab allocator is external; whether the single allocation performed by
  `hashtable_map_update_elem` succeeds is a boolean parameter `alloc_ok`.
* A bucket is the list of its linked elements, head first.  Removing the node
  returned by `hash_bucket_lookup_elem` (the first match of the scanned list)
  becomes `List.eraseP` with the same memcmp predicate.
* Locks, epochs and deferred reclamation govern concurrent executions only
  and leave no trace in the sequential state transformer modelled here.
-/

/-- Errno values used by the code (identical on FreeBSD and Linux). -/
def ENOENT : Nat := 2

def E2BIG : Nat := 7

def ENOMEM : Nat := 12

def EBUSY : Nat := 16

def EEXIST : Nat := 17

/-- Modelled from the spec: the update flag bits EBPF_NOEXIST (must-not-exist)
and EBPF_EXIST (must-exist) come from `ebpf_map.h`, which is not in this tree;
they are distinct single bits, default (upsert) being flags without either
bit set. -/
def EBPF_NOEXIST : Nat := 1

/-- Modelled from the spec: see `EBPF_NOEXIST`. -/
def EBPF_EXIST : Nat := 2

def UINT32_MAX : Nat := 2 ^ 32 - 1

/-- One `struct hash_elem`: the stored key bytes followed by the value bytes.
The list linkage, the epoch context and the owning-map back pointer are
bookkeeping for concurrent reclamation and carry no sequential state. -/
structure HashElem where
  key : List Nat
  value : List Nat
deriving DecidableEq, Repr

/-- The map state: `struct ebpf_map_hashtable` together with the
configuration fields of the surrounding `struct ebpf_map` that the code
reads (`key_size`, `value_size`, `max_entries`). -/
structure EbpfMapHashtable where
  key_size : Nat
  value_size : Nat
  max_entries : Nat
  count : Nat
  nbuckets : Nat
  buckets : List (List HashElem)
deriving DecidableEq, Repr

/-- memcmp equality of the first `n` bytes of two buffers
(`memcmp(a, b, n) == 0`). -/
def memEq (n : Nat) (a b : List Nat) : Bool := a.take n == b.take n

/-- hashtable_map_get_bucket: bucket index `hash & (nbuckets - 1)`. -/
def hashtable_map_get_bucket (m : EbpfMapHashtable) (hash : Nat) : Nat :=
  Nat.land hash (m.nbuckets - 1)

/-- Digest of a key, `ebpf_jenkins_hash(key, map->key_size, 0)`: the external
hash of the first `key_size` bytes, truncated to 32 bits. -/
def hashOf (hashf : List Nat → Nat) (m : EbpfMapHashtable) (key : List Nat) : Nat :=
  hashf (key.take m.key_size) % 2 ^ 32

/-- Bucket index a key hashes to. -/
def keyBucketIdx (hashf : List Nat → Nat) (m : EbpfMapHashtable) (key : List Nat) : Nat :=
  hashtable_map_get_bucket m (hashOf hashf m key)

/-- hash_bucket_lookup_elem: scan the bucket list for the first element whose
first `key_size` key bytes equal the sought key. -/
def hash_bucket_lookup_elem (bucket : List HashElem) (key : List Nat)
    (key_size : Nat) : Option HashElem :=
  bucket.find? (fun e => memEq key_size e.key key)

/-- hashtable_map_lookup_elem: `none` models the NULL return,
`some v` the pointer to the value bytes (`HASH_ELEM_VALUE`). -/
def hashtable_map_lookup_elem (hashf : List Nat → Nat) (m : EbpfMapHashtable)
    (key : List Nat) : Option (List Nat) :=
  if m.count = 0 then none
  else
    match hash_bucket_lookup_elem (m.buckets.getD (keyBucketIdx hashf m key) [])
        key m.key_size with
    | none => none
    | some e => some e.value

/-- check_update_flags. -/
def check_update_flags (elem : Option HashElem) (flags : Nat) : Nat :=
  match elem with
  | some _ => if Nat.land flags EBPF_NOEXIST ≠ 0 then EEXIST else 0
  | none => if Nat.land flags EBPF_EXIST ≠ 0 then ENOENT else 0

/-- hashtable_map_update_elem.  The source inserts the populated new element
at the list head and then, on replace, unlinks the node found earlier;
unlinking that node (found as the first memcmp match of the original list)
is `List.eraseP` on the original bucket.  The unlinked node goes to the
epoch scheduler, so the sequential list state is exactly head insertion plus
that erasure.  `alloc_ok` models whether `ebpf_allocator_alloc` succeeds. -/
def hashtable_map_update_elem (hashf : List Nat → Nat) (alloc_ok : Bool)
    (m : EbpfMapHashtable) (key value : List Nat) (flags : Nat) :
    Nat × EbpfMapHashtable :=
  if m.count = m.max_entries then (EBUSY, m)
  else
    let j := keyBucketIdx hashf m key
    let bucket := m.buckets.getD j []
    let old_elem := hash_bucket_lookup_elem bucket key m.key_size
    let error := check_update_flags old_elem flags
    if error ≠ 0 then (error, m)
    else if alloc_ok = false then (ENOMEM, m)
    else
      let new_elem : HashElem := ⟨key.take m.key_size, value.take m.value_size⟩
      match old_elem with
      | some _ =>
        (0, { m with
              buckets := m.buckets.set j
                (new_elem :: bucket.eraseP (fun e => memEq m.key_size e.key key)) })
      | none =>
        (0, { m with
              buckets := m.buckets.set j (new_elem :: bucket),
              count := m.count + 1 })

/-- hashtable_map_delete_elem: always returns 0; when the key is found its
node is unlinked and the live count decremented. -/
def hashtable_map_delete_elem (hashf : List Nat → Nat) (m : EbpfMapHashtable)
    (key : List Nat) : Nat × EbpfMapHashtable :=
  let j := keyBucketIdx hashf m key
  let bucket := m.buckets.getD j []
  match hash_bucket_lookup_elem bucket key m.key_size with
  | some _ =>
    (0, { m with
          buckets := m.buckets.set j
            (bucket.eraseP (fun e => memEq m.key_size e.key key)),
          count := m.count - 1 })
  | none => (0, m)

/-- The scan loop at `get_first_key` in hashtable_map_get_next_key: the first
element of the first non-empty bucket of the given bucket slice, copying out
its first `ks` key bytes. -/
def scan_buckets (ks : Nat) : List (List HashElem) → Option (List Nat)
  | [] => none
  | [] :: rest => scan_buckets ks rest
  | (e :: _) :: _ => some (e.key.take ks)

/-- hash_bucket_lookup_elem followed by `EBPF_EPOCH_LIST_NEXT` on the node it
found: `none` when the key is in no node of the bucket, otherwise `some` of
the successor node (if any) of the first matching node. -/
def bucket_lookup_next (ks : Nat) (key : List Nat) :
    List HashElem → Option (Option HashElem)
  | [] => none
  | e :: rest =>
    if memEq ks e.key key then some rest.head? else bucket_lookup_next ks key rest

/-- hashtable_map_get_next_key: `none` models the ENOENT return, `some k` a 0
return with `k` copied to `next_key`.  The `key == NULL` call is
`key = none`. -/
def hashtable_map_get_next_key (hashf : List Nat → Nat) (m : EbpfMapHashtable)
    (key : Option (List Nat)) : Option (List Nat) :=
  if m.count = 0 ∨ (m.count = 1 ∧ key ≠ none) then none
  else
    match key with
    | none => scan_buckets m.key_size m.buckets
    | some k =>
      let j := keyBucketIdx hashf m k
      match bucket_lookup_next m.key_size k (m.buckets.getD j []) with
      | none => scan_buckets m.key_size m.buckets
      | some (some next_elem) => some (next_elem.key.take m.key_size)
      | some none => scan_buckets m.key_size (m.buckets.drop (j + 1))

/-- Doubling loop computing the least power of two that is at least `n`;
`fuel = n` steps always suffice. -/
def roundup_aux (n : Nat) : Nat → Nat → Nat
  | 0, acc => acc
  | fuel + 1, acc => if n ≤ acc then acc else roundup_aux n fuel (acc * 2)

/-- Modelled from the spec: `ebpf_roundup_pow_of_two` (from `ebpf_util.h`,
not in this tree) rounds up to the smallest power of two ≥ `n`. -/
def ebpf_roundup_pow_of_two (n : Nat) : Nat := roundup_aux n n 1

/-- hashtable_map_init.  In the C source `key_size + value_size` is uint32
addition — it wraps modulo 2 ^ 32 — and only then is the (wider, size_t)
`sizeof(struct hash_elem)` added and the sum compared against UINT32_MAX.
`hash_elem_size` is that platform-dependent sizeof; the memory-allocation
failure points (two callocs, allocator init, preallocation) are collapsed
into the boolean `mem_ok`. -/
def hashtable_map_init (hash_elem_size : Nat) (mem_ok : Bool)
    (key_size value_size max_entries : Nat) : Except Nat EbpfMapHashtable :=
  if (key_size + value_size) % 2 ^ 32 + hash_elem_size > UINT32_MAX then
    Except.error E2BIG
  else if mem_ok = false then Except.error ENOMEM
  else
    Except.ok
      { key_size := key_size
        value_size := value_size
        max_entries := max_entries
        count := 0
        nbuckets := ebpf_roundup_pow_of_two max_entries
        buckets := List.replicate (ebpf_roundup_pow_of_two max_entries) [] }

/-- All live keys, in bucket order and within a bucket in list order: the
order in which `hashtable_map_get_next_key` walks the table. -/
def allKeys (m : EbpfMapHashtable) : List (List Nat) :=
  m.buckets.flatten.map (fun e => e.key)

/-- Well-formedness of a sequential map state: the bucket array has the
advertised power-of-two length, the live count equals the number of linked
elements, stored keys and values have the configured sizes, every element
sits in the bucket its key hashes to, and no key is stored twice. -/
def WF (hashf : List Nat → Nat) (m : EbpfMapHashtable) : Prop :=
  m.buckets.length = m.nbuckets ∧
  (∃ t, t < m.nbuckets + 1 ∧ m.nbuckets = 2 ^ t) ∧
  m.count = m.buckets.flatten.length ∧
  (∀ e ∈ m.buckets.flatten,
    e.key.length = m.key_size ∧ e.value.length = m.value_size) ∧
  (∀ j, j < m.buckets.length →
    ∀ e ∈ m.buckets.getD j [], keyBucketIdx hashf m e.key = j) ∧
  (allKeys m).Nodup

instance (hashf : List Nat → Nat) (m : EbpfMapHashtable) : Decidable (WF hashf m) := by
  unfold WF
  infer_instance

/-- A mutating call of the map operation surface. -/
inductive MapOp where
  | update (key value : List Nat) (flags : Nat) (alloc_ok : Bool)
  | delete (key : List Nat)
deriving DecidableEq, Repr

def execOp (hashf : List Nat → Nat) (m : EbpfMapHashtable) :
    MapOp → Nat × EbpfMapHashtable
  | .update k v f a => hashtable_map_update_elem hashf a m k v f
  | .delete k => hashtable_map_delete_elem hashf m k

def execOps (hashf : List Nat → Nat) (m : EbpfMapHashtable) :
    List MapOp → EbpfMapHashtable
  | [] => m
  | op :: ops => execOps hashf (execOp hashf m op).2 ops

/-- The caller passes buffers of the configured sizes. -/
def opSized (ks vs : Nat) : MapOp → Prop
  | .update k v _ _ => k.length = ks ∧ v.length = vs
  | .delete k => k.length = ks

def opKey : MapOp → List Nat
  | .update k _ _ _ => k
  | .delete k => k

/-- Op is neither a successful update of key `K` nor a delete of `K`,
judged at state `m`. -/
def opAvoids (hashf : List Nat → Nat) (K : List Nat) (m : EbpfMapHashtable) :
    MapOp → Prop
  | .update k v f a => k ≠ K ∨ (hashtable_map_update_elem hashf a m k v f).1 ≠ 0
  | .delete k => k ≠ K

/-- Every op of the sequence, run from `m`, avoids touching key `K`. -/
def avoidsK (hashf : List Nat → Nat) (K : List Nat) :
    EbpfMapHashtable → List MapOp → Prop
  | _, [] => True
  | m, op :: ops =>
    opAvoids hashf K m op ∧ avoidsK hashf K (execOp hashf m op).2 ops

instance instDecOpSized (ks vs : Nat) : (op : MapOp) → Decidable (opSized ks vs op)
  | .update k v _ _ => inferInstanceAs (Decidable (k.length = ks ∧ v.length = vs))
  | .delete k => inferInstanceAs (Decidable (k.length = ks))

instance instDecOpAvoids (hashf : List Nat → Nat) (K : List Nat)
    (m : EbpfMapHashtable) : (op : MapOp) → Decidable (opAvoids hashf K m op)
  | .update k v f a => inferInstanceAs
      (Decidable (k ≠ K ∨ (hashtable_map_update_elem hashf a m k v f).1 ≠ 0))
  | .delete k => inferInstanceAs (Decidable (k ≠ K))

instance instDecAvoidsK (hashf : List Nat → Nat) (K : List Nat) :
    (m : EbpfMapHashtable) → (ops : List MapOp) → Decidable (avoidsK hashf K m ops)
  | _, [] => inferInstanceAs (Decidable True)
  | m, op :: ops =>
    have : Decidable (avoidsK hashf K (execOp hashf m op).2 ops) :=
      instDecAvoidsK hashf K (execOp hashf m op).2 ops
    inferInstanceAs
      (Decidable (opAvoids hashf K m op ∧ avoidsK hashf K (execOp hashf m op).2 ops))

/-- Fuelled enumeration loop: call get_next_key, feed the answer back in,
stop at the first not-found. -/
def enumFrom (hashf : List Nat → Nat) (m : EbpfMapHashtable) :
    Nat → Option (List Nat) → List (List Nat)
  | 0, _ => []
  | fuel + 1, cur =>
    match hashtable_map_get_next_key hashf m cur with
    | none => []
    | some k => k :: enumFrom hashf m fuel (some k)

/-- Full enumeration: start from `none`, fuel `count + 1` (one call per
element plus the final not-found). -/
def enumerate (hashf : List Nat → Nat) (m : EbpfMapHashtable) : List (List Nat) :=
  enumFrom hashf m (m.count + 1) none

/-- Constant hash, a legal digest function for concrete instances. -/
def hzero : List Nat → Nat := fun _ => 0

/-- Hash returning the first key byte, a legal digest function. -/
def hfirst : List Nat → Nat := fun k => k.headD 0

/-- A full one-slot map (count = max_entries = 1) holding key [0] ↦ [7]. -/
def mFull : EbpfMapHashtable :=
  { key_size := 1, value_size := 1, max_entries := 1, count := 1,
    nbuckets := 1, buckets := [[⟨[0], [7]⟩]] }

/-- A four-bucket map holding [0] ↦ [7] and [1] ↦ [8] under `hfirst`. -/
def mTwo : EbpfMapHashtable :=
  { key_size := 1, value_size := 1, max_entries := 4, count := 2,
    nbuckets := 4, buckets := [[⟨[0], [7]⟩], [⟨[1], [8]⟩], [], []] }

/-- An empty four-bucket map. -/
def mEmpty : EbpfMapHashtable :=
  { key_size := 1, value_size := 1, max_entries := 4, count := 0,
    nbuckets := 4, buckets := [[], [], [], []] }

/-! ## Helper lemmas -/

/-- Below capacity, the error code of an update is exactly the flag-check
result, else ENOMEM on allocation failure, else 0. -/
theorem update_fst_eq (hashf : List Nat → Nat) (a : Bool)
    (m : EbpfMapHashtable) (K V : List Nat) (flags : Nat)
    (hcap : m.count ≠ m.max_entries) :
    (hashtable_map_update_elem hashf a m K V flags).1 =
      (if check_update_flags
          (hash_bucket_lookup_elem (m.buckets.getD (keyBucketIdx hashf m K) [])
            K m.key_size) flags ≠ 0 then
        check_update_flags
          (hash_bucket_lookup_elem (m.buckets.getD (keyBucketIdx hashf m K) [])
            K m.key_size) flags
      else if a = false then ENOMEM else 0) := by
  simp only [hashtable_map_update_elem]
  rw [if_neg hcap]
  split
  · rfl
  · split
    · rfl
    · split <;> rfl

/-- getD below the length is plain indexing. -/
theorem getD_lt {α : Type} (l : List α) (d : α) (j : Nat) (hj : j < l.length) :
    l.getD j d = l.get ⟨j, hj⟩ := by
  simp [List.getD_eq_getElem?_getD, List.getElem?_eq_getElem hj]

theorem getD_set_self {α : Type} (l : List α) (d : α) (j : Nat) (b : α)
    (hj : j < l.length) : (l.set j b).getD j d = b := by
  simp [List.getD_eq_getElem?_getD, List.getElem?_set_self hj]

theorem getD_set_ne {α : Type} (l : List α) (d : α) (i j : Nat) (b : α)
    (hij : i ≠ j) : (l.set i b).getD j d = l.getD j d := by
  simp [List.getD_eq_getElem?_getD, List.getElem?_set_ne hij]

/-- A list splits at any index below its length. -/
theorem list_decomp {α : Type} (l : List α) (j : Nat) (hj : j < l.length) :
    l = l.take j ++ l.get ⟨j, hj⟩ :: l.drop (j + 1) := by
  conv_lhs => rw [← List.take_append_drop j l]
  rw [List.drop_eq_getElem_cons hj]
  rfl

theorem set_decomp {α : Type} (l : List α) (j : Nat) (b : α) (hj : j < l.length) :
    l.set j b = l.take j ++ b :: l.drop (j + 1) := by
  rw [List.set_eq_take_append_cons_drop, if_pos hj]

theorem flatten_set {α : Type} (L : List (List α)) (j : Nat) (b : List α)
    (hj : j < L.length) :
    (L.set j b).flatten = (L.take j).flatten ++ b ++ (L.drop (j + 1)).flatten := by
  rw [set_decomp L j b hj, List.flatten_append, List.flatten_cons, List.append_assoc]

theorem flatten_decomp {α : Type} (L : List (List α)) (j : Nat) (hj : j < L.length) :
    L.flatten = (L.take j).flatten ++ L.get ⟨j, hj⟩ ++ (L.drop (j + 1)).flatten := by
  conv_lhs => rw [list_decomp L j hj]
  rw [List.flatten_append, List.flatten_cons, List.append_assoc]

/-- memcmp equality only inspects the first `ks` bytes. -/
theorem memEq_take_left (ks : Nat) (a b : List Nat) :
    memEq ks (a.take ks) b = memEq ks a b := by
  simp [memEq, List.take_take]

theorem memEq_self_take (ks : Nat) (k : List Nat) :
    memEq ks (k.take ks) k = true := by
  simp [memEq, List.take_take]

theorem take_of_length_eq {ks : Nat} {a : List Nat} (ha : a.length = ks) :
    a.take ks = a := by
  rw [← ha]
  exact List.take_length a

/-- On buffers of length exactly `ks`, memcmp equality is equality. -/
theorem memEq_eq_iff {ks : Nat} {a b : List Nat}
    (ha : a.length = ks) (hb : b.length = ks) :
    memEq ks a b = true ↔ a = b := by
  rw [memEq, take_of_length_eq ha, take_of_length_eq hb, beq_iff_eq]

/-- A found element splits its list, with no earlier match. -/
theorem find?_decomp {α : Type} (p : α → Bool) (l : List α) (e : α)
    (h : l.find? p = some e) :
    ∃ u w, l = u ++ e :: w ∧ ∀ x ∈ u, p x = false := by
  induction l with
  | nil => simp [List.find?] at h
  | cons x xs ih =>
    by_cases hx : p x
    · rw [List.find?_cons_of_pos _ hx] at h
      cases h
      exact ⟨[], xs, rfl, by simp⟩
    · rw [List.find?_cons_of_neg _ hx] at h
      obtain ⟨u, w, hl, hu⟩ := ih h
      refine ⟨x :: u, w, by rw [hl]; rfl, ?_⟩
      intro y hy
      rcases List.mem_cons.mp hy with rfl | hy
      · simpa using hx
      · exact hu y hy

/-- Erasing by a predicate disjoint from `p` does not change what `find? p`
returns. -/
theorem find?_eraseP_of_disjoint {α : Type} (p q : α → Bool) (l : List α)
    (h : ∀ x ∈ l, p x = true → q x = false) :
    (l.eraseP q).find? p = l.find? p := by
  induction l with
  | nil => rfl
  | cons x xs ih =>
    by_cases hq : q x
    · rw [List.eraseP_cons_of_pos hq]
      have hpx : ¬ p x = true := by
        intro hp
        rw [h x (by simp) hp] at hq
        exact Bool.false_ne_true hq
      rw [List.find?_cons_of_neg _ hpx]
    · rw [List.eraseP_cons_of_neg hq]
      by_cases hp : p x
      · rw [List.find?_cons_of_pos _ hp, List.find?_cons_of_pos _ hp]
      · rw [List.find?_cons_of_neg _ hp, List.find?_cons_of_neg _ hp]
        exact ih (fun y hy => h y (List.mem_cons_of_mem _ hy))

/-- In a bucket whose keys all have length `ks` and are pairwise distinct,
erasing the first match of a key removes the only match. -/
theorem find?_eraseP_self_none (ks : Nat) (K : List Nat) (b : List HashElem)
    (hlen : ∀ e ∈ b, e.key.length = ks)
    (hnd : (b.map (fun e => e.key)).Nodup) :
    (b.eraseP (fun e => memEq ks e.key K)).find? (fun e => memEq ks e.key K) = none := by
  induction b with
  | nil => rfl
  | cons x xs ih =>
    rw [List.map_cons, List.nodup_cons] at hnd
    by_cases hx : memEq ks x.key K
    · simp only [List.eraseP_cons, hx, cond_true]
      rw [List.find?_eq_none]
      intro y hy hpy
      have hxl := hlen x (by simp)
      have hyl := hlen y (List.mem_cons_of_mem _ hy)
      have h1 : x.key.take ks = K.take ks := by
        have := (beq_iff_eq).mp hx
        simpa [memEq] using hx
      have h2 : y.key.take ks = K.take ks := by
        simpa [memEq] using hpy
      have hxy : x.key = y.key := by
        rw [← take_of_length_eq hxl, ← take_of_length_eq hyl, h1, h2]
      exact hnd.1 (by rw [hxy]; exact List.mem_map_of_mem _ hy)
    · have hx3 : memEq ks x.key K = false := by simpa using hx
      simp only [List.eraseP_cons, hx3, cond_false]
      simp only [List.find?_cons, hx3, cond_false]
      exact ih (fun e he => hlen e (List.mem_cons_of_mem _ he)) hnd.2

/-- A Nodup list splits around a given element in exactly one way. -/
theorem nodup_split_unique {α : Type} (k : α) : ∀ (l1 : List α) (l2 l1' l2' : List α),
    (l1 ++ k :: l2).Nodup → l1 ++ k :: l2 = l1' ++ k :: l2' → l1 = l1' ∧ l2 = l2' := by
  intro l1
  induction l1 with
  | nil =>
    intro l2 l1' l2' hnd heq
    cases l1' with
    | nil =>
      simp only [List.nil_append, List.cons.injEq] at heq
      exact ⟨rfl, heq.2⟩
    | cons x t =>
      exfalso
      simp only [List.nil_append, List.cons_append, List.cons.injEq] at heq
      obtain ⟨rfl, hl2⟩ := heq
      have hk : k ∈ l2 := by
        rw [hl2]
        simp
      exact (List.nodup_cons.mp hnd).1 hk
  | cons x t ih =>
    intro l2 l1' l2' hnd heq
    cases l1' with
    | nil =>
      exfalso
      simp only [List.cons_append, List.nil_append, List.cons.injEq] at heq
      obtain ⟨rfl, h2⟩ := heq
      have hx : x ∈ t ++ x :: l2 := by simp
      rw [List.cons_append] at hnd
      exact (List.nodup_cons.mp hnd).1 hx
    | cons y t' =>
      simp only [List.cons_append, List.cons.injEq] at heq
      obtain ⟨rfl, h2⟩ := heq
      rw [List.cons_append] at hnd
      have := ih l2 t' l2' (List.nodup_cons.mp hnd).2 h2
      exact ⟨by rw [this.1], this.2⟩

/-- keyBucketIdx reads only the key_size and nbuckets fields. -/
theorem keyBucketIdx_congr (hashf : List Nat → Nat) (m m' : EbpfMapHashtable)
    (K : List Nat) (h1 : m'.key_size = m.key_size) (h2 : m'.nbuckets = m.nbuckets) :
    keyBucketIdx hashf m' K = keyBucketIdx hashf m K := by
  simp [keyBucketIdx, hashtable_map_get_bucket, hashOf, h1, h2]

/-- In a power-of-two table the bucket mask keeps the index in range. -/
theorem keyBucketIdx_lt (hashf : List Nat → Nat) (m : EbpfMapHashtable)
    (K : List Nat) (t : Nat) (hpow : m.nbuckets = 2 ^ t) :
    keyBucketIdx hashf m K < m.nbuckets := by
  rw [keyBucketIdx, hashtable_map_get_bucket, hpow]
  calc Nat.land (hashOf hashf m K) (2 ^ t - 1)
      = hashOf hashf m K % 2 ^ t := Nat.and_pow_two_sub_one_eq_mod _ t
    _ < 2 ^ t := Nat.mod_lt _ (Nat.two_pow_pos t)

/-- Elements of any bucket are elements of the flattened table. -/
theorem mem_flatten_of_mem_getD (L : List (List HashElem)) (j : Nat) (e : HashElem)
    (he : e ∈ L.getD j []) : e ∈ L.flatten := by
  by_cases hj : j < L.length
  · rw [getD_lt L [] j hj] at he
    exact List.mem_flatten.mpr ⟨L.get ⟨j, hj⟩, List.get_mem L j hj, he⟩
  · rw [List.getD_eq_getElem?_getD, List.getElem?_eq_none (le_of_not_lt hj)] at he
    simp at he

/-- The keys of one bucket are Nodup when all table keys are. -/
theorem bucket_keys_nodup (m : EbpfMapHashtable) (j : Nat)
    (hnd : (allKeys m).Nodup) :
    ((m.buckets.getD j []).map (fun e => e.key)).Nodup := by
  by_cases hj : j < m.buckets.length
  · have hdec := flatten_decomp m.buckets j hj
    have hsub : (m.buckets.getD j []).Sublist m.buckets.flatten := by
      rw [getD_lt _ _ _ hj]
      exact List.IsInfix.sublist
        ⟨(m.buckets.take j).flatten, (m.buckets.drop (j + 1)).flatten, hdec.symm⟩
    exact List.Nodup.sublist (List.Sublist.map _ hsub) hnd
  · rw [List.getD_eq_getElem?_getD, List.getElem?_eq_none (le_of_not_lt hj)]
    simp

/-- A lookup hit means the count guard passed and the bucket scan found an
element carrying the returned value. -/
theorem lookup_eq_some_elim (hashf : List Nat → Nat) (m : EbpfMapHashtable)
    (K V : List Nat) (h : hashtable_map_lookup_elem hashf m K = some V) :
    m.count ≠ 0 ∧ ∃ e, hash_bucket_lookup_elem
      (m.buckets.getD (keyBucketIdx hashf m K) []) K m.key_size = some e ∧
      e.value = V := by
  revert h
  simp only [hashtable_map_lookup_elem]
  split
  · exact fun h => absurd h (by simp)
  · rename_i h0
    cases hf : hash_bucket_lookup_elem
        (m.buckets.getD (keyBucketIdx hashf m K) []) K m.key_size with
    | none => exact fun h => absurd h (by simp)
    | some e =>
      intro h
      refine ⟨h0, e, rfl, ?_⟩
      simpa using h

theorem lookup_eq_some_intro (hashf : List Nat → Nat) (m : EbpfMapHashtable)
    (K : List Nat) (e : HashElem) (h0 : m.count ≠ 0)
    (hf : hash_bucket_lookup_elem
      (m.buckets.getD (keyBucketIdx hashf m K) []) K m.key_size = some e) :
    hashtable_map_lookup_elem hashf m K = some e.value := by
  simp only [hashtable_map_lookup_elem]
  rw [if_neg h0, hf]

theorem lookup_eq_none_intro (hashf : List Nat → Nat) (m : EbpfMapHashtable)
    (K : List Nat)
    (hf : hash_bucket_lookup_elem
      (m.buckets.getD (keyBucketIdx hashf m K) []) K m.key_size = none) :
    hashtable_map_lookup_elem hashf m K = none := by
  simp only [hashtable_map_lookup_elem]
  split
  · rfl
  · rw [hf]

/-- The state delete leaves behind, split on whether the key was found. -/
theorem delete_state_eq (hashf : List Nat → Nat) (m : EbpfMapHashtable)
    (K : List Nat) :
    (hashtable_map_delete_elem hashf m K).2 =
      (match hash_bucket_lookup_elem
          (m.buckets.getD (keyBucketIdx hashf m K) []) K m.key_size with
       | some _ =>
         { m with
           buckets := m.buckets.set (keyBucketIdx hashf m K)
             ((m.buckets.getD (keyBucketIdx hashf m K) []).eraseP
               (fun e => memEq m.key_size e.key K)),
           count := m.count - 1 }
       | none => m) := by
  simp only [hashtable_map_delete_elem]
  split <;> rfl

/-- A call that returns a nonzero error code has not changed the state. -/
theorem execOp_error_state (hashf : List Nat → Nat) (m : EbpfMapHashtable)
    (op : MapOp) (herr : (execOp hashf m op).1 ≠ 0) :
    (execOp hashf m op).2 = m := by
  revert herr
  cases op with
  | update k v f a =>
    simp only [execOp, hashtable_map_update_elem]
    split
    · intro _
      rfl
    · split
      · intro _
        rfl
      · split
        · intro _
          rfl
        · split <;> exact fun h => absurd rfl h
  | delete k =>
    simp only [execOp, hashtable_map_delete_elem]
    split <;> exact fun h => absurd rfl h

/-- The state a successful update leaves behind, split on replace/insert. -/
theorem update_success_state (hashf : List Nat → Nat) (a : Bool)
    (m : EbpfMapHashtable) (k v : List Nat) (f : Nat)
    (hsucc : (hashtable_map_update_elem hashf a m k v f).1 = 0) :
    (hashtable_map_update_elem hashf a m k v f).2 =
      (match hash_bucket_lookup_elem
          (m.buckets.getD (keyBucketIdx hashf m k) []) k m.key_size with
       | some _ =>
         { m with
           buckets := m.buckets.set (keyBucketIdx hashf m k)
             (⟨k.take m.key_size, v.take m.value_size⟩ ::
               (m.buckets.getD (keyBucketIdx hashf m k) []).eraseP
                 (fun e => memEq m.key_size e.key k)) }
       | none =>
         { m with
           buckets := m.buckets.set (keyBucketIdx hashf m k)
             (⟨k.take m.key_size, v.take m.value_size⟩ ::
               m.buckets.getD (keyBucketIdx hashf m k) []),
           count := m.count + 1 }) := by
  revert hsucc
  simp only [hashtable_map_update_elem]
  split
  · intro h
    simp [EBUSY] at h
  · split
    · rename_i herr
      intro h
      exact absurd h herr
    · split
      · intro h
        simp [ENOMEM] at h
      · split <;> intro _ <;> rfl

/-- Hashing a key is insensitive to pre-truncation at key_size. -/
theorem keyBucketIdx_take (hashf : List Nat → Nat) (m : EbpfMapHashtable)
    (k : List Nat) :
    keyBucketIdx hashf m (k.take m.key_size) = keyBucketIdx hashf m k := by
  simp [keyBucketIdx, hashOf, List.take_take]

theorem flatten_length_decomp {α : Type} (L : List (List α)) (j : Nat)
    (hj : j < L.length) :
    L.flatten.length = (L.take j).flatten.length + (L.get ⟨j, hj⟩).length +
      (L.drop (j + 1)).flatten.length := by
  conv_lhs => rw [flatten_decomp L j hj]
  simp [List.length_append]
  omega

theorem flatten_length_set {α : Type} (L : List (List α)) (j : Nat) (b : List α)
    (hj : j < L.length) :
    (L.set j b).flatten.length = (L.take j).flatten.length + b.length +
      (L.drop (j + 1)).flatten.length := by
  rw [flatten_set L j b hj]
  simp [List.length_append]
  omega

theorem flatten_take_drop {α : Type} (L : List (List α)) (j : Nat) :
    L.flatten = (L.take j).flatten ++ (L.drop j).flatten := by
  rw [← List.flatten_append, List.take_append_drop]

theorem mem_flatten_of_take {α : Type} (L : List (List α)) (j : Nat) (e : α)
    (h : e ∈ (L.take j).flatten) : e ∈ L.flatten := by
  rw [flatten_take_drop L j]
  exact List.mem_append_left _ h

theorem mem_flatten_of_drop {α : Type} (L : List (List α)) (j : Nat) (e : α)
    (h : e ∈ (L.drop j).flatten) : e ∈ L.flatten := by
  rw [flatten_take_drop L j]
  exact List.mem_append_right _ h

/-- A list holding two distinct members has at least two entries. -/
theorem two_le_length_of_two_mem {α : Type} (l : List α) (x y : α)
    (hx : x ∈ l) (hy : y ∈ l) (hxy : x ≠ y) : 2 ≤ l.length := by
  cases l with
  | nil => cases hx
  | cons a tl =>
    cases tl with
    | nil =>
      rcases List.mem_singleton.mp hx with rfl
      rcases List.mem_singleton.mp hy with rfl
      exact absurd rfl hxy
    | cons b tl2 => simp [Nat.succ_le_succ, List.length_cons]

theorem eraseP_append_cons {α : Type} (p : α → Bool) (u w : List α) (e : α)
    (hu : ∀ x ∈ u, p x = false) (he : p e = true) :
    (u ++ e :: w).eraseP p = u ++ w := by
  induction u with
  | nil => simp [List.eraseP_cons, he]
  | cons x xs ih =>
    have hx := hu x (by simp)
    simp only [List.cons_append, List.eraseP_cons, hx, cond_false]
    rw [ih (fun y hy => hu y (by simp [hy]))]

/-- A missed bucket lookup means the key is stored nowhere in the table. -/
theorem not_mem_allKeys_of_find_none (hashf : List Nat → Nat)
    (m : EbpfMapHashtable) (k : List Nat) (hWF : WF hashf m)
    (hfind : hash_bucket_lookup_elem
      (m.buckets.getD (keyBucketIdx hashf m k) []) k m.key_size = none) :
    k.take m.key_size ∉ allKeys m := by
  obtain ⟨hblen, hpow2, hcount, hsizes, hbucket, hnd⟩ := hWF
  intro hmem
  obtain ⟨e2, he2, hkey⟩ := List.mem_map.mp hmem
  obtain ⟨l, hl, hel⟩ := List.mem_flatten.mp he2
  obtain ⟨n, hn⟩ := List.mem_iff_get.mp hl
  have he2b : e2 ∈ m.buckets.getD n.1 [] := by
    rw [getD_lt _ _ _ n.2]
    exact hn ▸ hel
  have hidx := hbucket n.1 n.2 e2 he2b
  have hkey2 : e2.key = k.take m.key_size := hkey
  rw [hkey2, keyBucketIdx_take] at hidx
  have he2c : e2 ∈ m.buckets.getD (keyBucketIdx hashf m k) [] := by
    rw [hidx]
    exact he2b
  have hno := List.find?_eq_none.mp hfind e2 he2c
  apply hno
  show memEq m.key_size e2.key k = true
  rw [hkey2]
  exact memEq_self_take _ _

/-- A successful bucket lookup splits the bucket around the matched element,
whose stored key is exactly the first key_size bytes of the sought key. -/
theorem bucket_found_decomp (m : EbpfMapHashtable) (k : List Nat) (j : Nat)
    (e0 : HashElem)
    (hsizes : ∀ e ∈ m.buckets.flatten,
      e.key.length = m.key_size ∧ e.value.length = m.value_size)
    (hfind : hash_bucket_lookup_elem (m.buckets.getD j []) k m.key_size = some e0) :
    e0.key = k.take m.key_size ∧
    ∃ u w, m.buckets.getD j [] = u ++ e0 :: w ∧
      (∀ x ∈ u, memEq m.key_size x.key k = false) ∧
      (m.buckets.getD j []).eraseP (fun e => memEq m.key_size e.key k) = u ++ w := by
  have hfind2 : List.find? (fun e => memEq m.key_size e.key k)
      (m.buckets.getD j []) = some e0 := hfind
  have hp0 := List.find?_some hfind2
  have hp : memEq m.key_size e0.key k = true := hp0
  have hmem := List.mem_of_find?_eq_some hfind2
  have hlen : e0.key.length = m.key_size :=
    (hsizes e0 (mem_flatten_of_mem_getD _ _ _ hmem)).1
  have h1 : e0.key.take m.key_size = k.take m.key_size := by
    simpa [memEq] using hp
  have hkey : e0.key = k.take m.key_size := by
    rw [← take_of_length_eq hlen]
    exact h1
  obtain ⟨u, w, hdecomp, hu⟩ := find?_decomp _ _ _ hfind2
  refine ⟨hkey, u, w, hdecomp, hu, ?_⟩
  rw [hdecomp]
  exact eraseP_append_cons _ u w e0 hu hp

/-- A successful insert of a fresh key preserves well-formedness. -/
theorem WF_update_insert (hashf : List Nat → Nat) (m : EbpfMapHashtable)
    (k v : List Nat) (hk : k.length = m.key_size) (hv : v.length = m.value_size)
    (hWF : WF hashf m)
    (hfind : hash_bucket_lookup_elem
      (m.buckets.getD (keyBucketIdx hashf m k) []) k m.key_size = none) :
    WF hashf
      { m with
        buckets := m.buckets.set (keyBucketIdx hashf m k)
          (⟨k.take m.key_size, v.take m.value_size⟩ ::
            m.buckets.getD (keyBucketIdx hashf m k) []),
        count := m.count + 1 } := by
  have hnotmem := not_mem_allKeys_of_find_none hashf m k hWF hfind
  obtain ⟨hblen, ⟨t, ht, hpow⟩, hcount, hsizes, hbucket, hnd⟩ := hWF
  have hjlt : keyBucketIdx hashf m k < m.buckets.length := by
    rw [hblen]
    exact keyBucketIdx_lt hashf m k t hpow
  refine ⟨?_, ⟨t, ht, hpow⟩, ?_, ?_, ?_, ?_⟩
  · show (m.buckets.set _ _).length = m.nbuckets
    rw [List.length_set]
    exact hblen
  · show m.count + 1 = (m.buckets.set _ _).flatten.length
    rw [flatten_length_set _ _ _ hjlt]
    have hdc := flatten_length_decomp m.buckets _ hjlt
    rw [← getD_lt m.buckets [] _ hjlt] at hdc
    rw [hcount, hdc]
    simp only [List.length_cons]
    omega
  · intro e he
    replace he : e ∈ (m.buckets.set (keyBucketIdx hashf m k)
        (⟨k.take m.key_size, v.take m.value_size⟩ ::
          m.buckets.getD (keyBucketIdx hashf m k) [])).flatten := he
    rw [flatten_set _ _ _ hjlt] at he
    show e.key.length = m.key_size ∧ e.value.length = m.value_size
    rcases List.mem_append.mp he with h12 | h3
    · rcases List.mem_append.mp h12 with h1 | h2
      · exact hsizes e (mem_flatten_of_take _ _ _ h1)
      · rcases List.mem_cons.mp h2 with rfl | h2b
        · constructor
          · show (k.take m.key_size).length = m.key_size
            rw [take_of_length_eq hk]
            exact hk
          · show (v.take m.value_size).length = m.value_size
            rw [take_of_length_eq hv]
            exact hv
        · exact hsizes e (mem_flatten_of_mem_getD _ _ _ h2b)
    · exact hsizes e (mem_flatten_of_drop _ _ _ h3)
  · intro j2 hj2 e he
    replace hj2 : j2 < m.buckets.length := by
      simpa [List.length_set] using hj2
    by_cases hjj : j2 = keyBucketIdx hashf m k
    · subst hjj
      replace he : e ∈ (⟨k.take m.key_size, v.take m.value_size⟩ : HashElem) ::
          m.buckets.getD (keyBucketIdx hashf m k) [] := by
        have hset := getD_set_self m.buckets [] (keyBucketIdx hashf m k)
          ((⟨k.take m.key_size, v.take m.value_size⟩ : HashElem) ::
            m.buckets.getD (keyBucketIdx hashf m k) []) hjlt
        exact hset ▸ he
      rcases List.mem_cons.mp he with rfl | he2
      · show keyBucketIdx hashf m (k.take m.key_size) = keyBucketIdx hashf m k
        exact keyBucketIdx_take hashf m k
      · show keyBucketIdx hashf m e.key = keyBucketIdx hashf m k
        exact hbucket _ hjlt e he2
    · replace he : e ∈ m.buckets.getD j2 [] := by
        have hset := getD_set_ne m.buckets [] (keyBucketIdx hashf m k) j2
          ((⟨k.take m.key_size, v.take m.value_size⟩ : HashElem) ::
            m.buckets.getD (keyBucketIdx hashf m k) []) (fun h => hjj h.symm)
        exact hset ▸ he
      show keyBucketIdx hashf m e.key = j2
      exact hbucket j2 hj2 e he
  · have hAK : (allKeys { m with
        buckets := m.buckets.set (keyBucketIdx hashf m k)
          (⟨k.take m.key_size, v.take m.value_size⟩ ::
            m.buckets.getD (keyBucketIdx hashf m k) []),
        count := m.count + 1 }) =
      ((m.buckets.take (keyBucketIdx hashf m k)).flatten.map (fun e => e.key)) ++
        (k.take m.key_size ::
          (((m.buckets.getD (keyBucketIdx hashf m k) []).map (fun e => e.key)) ++
           ((m.buckets.drop (keyBucketIdx hashf m k + 1)).flatten.map
             (fun e => e.key)))) := by
      show (m.buckets.set _ _).flatten.map (fun e => e.key) = _
      rw [flatten_set _ _ _ hjlt]
      simp [List.map_append]
    have hAK0 : allKeys m =
      ((m.buckets.take (keyBucketIdx hashf m k)).flatten.map (fun e => e.key)) ++
        (((m.buckets.getD (keyBucketIdx hashf m k) []).map (fun e => e.key)) ++
         ((m.buckets.drop (keyBucketIdx hashf m k + 1)).flatten.map
           (fun e => e.key))) := by
      show m.buckets.flatten.map (fun e => e.key) = _
      conv_lhs => rw [flatten_decomp m.buckets _ hjlt]
      rw [← getD_lt m.buckets [] _ hjlt]
      simp [List.map_append]
    show (allKeys _).Nodup
    rw [hAK]
    apply List.Perm.nodup (List.Perm.symm List.perm_middle)
    rw [List.nodup_cons]
    constructor
    · rw [hAK0] at hnotmem
      exact hnotmem
    · rw [← hAK0]
      exact hnd

/-- Moving the head insertion of a replaced key to the front of its bucket
keeps the key list duplicate-free. -/
theorem nodup_replace_middle {α : Type} (T U W D : List α) (x : α)
    (hnd : (T ++ (U ++ (x :: (W ++ D)))).Nodup) :
    (T ++ (x :: (U ++ (W ++ D)))).Nodup := by
  apply List.Perm.nodup (List.Perm.symm List.perm_middle)
  have h2 : ((T ++ U) ++ (x :: (W ++ D))).Nodup := by
    rw [List.append_assoc]
    exact hnd
  have h3 := List.Perm.nodup List.perm_middle h2
  rw [List.append_assoc] at h3
  exact h3

/-- Removing one occurrence keeps the key list duplicate-free. -/
theorem nodup_delete_middle {α : Type} (T U W D : List α) (x : α)
    (hnd : (T ++ (U ++ (x :: (W ++ D)))).Nodup) :
    (T ++ (U ++ (W ++ D))).Nodup :=
  List.Nodup.sublist
    (List.Sublist.append (List.Sublist.refl T)
      (List.Sublist.append (List.Sublist.refl U) (List.sublist_cons_self x _)))
    hnd

/-- A successful replace of an existing key preserves well-formedness. -/
theorem WF_update_replace (hashf : List Nat → Nat) (m : EbpfMapHashtable)
    (k v : List Nat) (hk : k.length = m.key_size) (hv : v.length = m.value_size)
    (hWF : WF hashf m) (e0 : HashElem)
    (hfind : hash_bucket_lookup_elem
      (m.buckets.getD (keyBucketIdx hashf m k) []) k m.key_size = some e0) :
    WF hashf
      { m with
        buckets := m.buckets.set (keyBucketIdx hashf m k)
          (⟨k.take m.key_size, v.take m.value_size⟩ ::
            (m.buckets.getD (keyBucketIdx hashf m k) []).eraseP
              (fun e => memEq m.key_size e.key k)) } := by
  obtain ⟨hblen, ⟨t, ht, hpow⟩, hcount, hsizes, hbucket, hnd⟩ := hWF
  obtain ⟨hkey, u, w, hdecomp, hu, herase⟩ :=
    bucket_found_decomp m k (keyBucketIdx hashf m k) e0 hsizes hfind
  have hjlt : keyBucketIdx hashf m k < m.buckets.length := by
    rw [hblen]
    exact keyBucketIdx_lt hashf m k t hpow
  have hsub : ∀ e ∈ (m.buckets.getD (keyBucketIdx hashf m k) []).eraseP
      (fun e => memEq m.key_size e.key k), e ∈ m.buckets.flatten :=
    fun e he => mem_flatten_of_mem_getD _ _ _ (List.mem_of_mem_eraseP he)
  refine ⟨?_, ⟨t, ht, hpow⟩, ?_, ?_, ?_, ?_⟩
  · show (m.buckets.set _ _).length = m.nbuckets
    rw [List.length_set]
    exact hblen
  · show m.count = (m.buckets.set _ _).flatten.length
    rw [flatten_length_set _ _ _ hjlt]
    have hdc := flatten_length_decomp m.buckets _ hjlt
    rw [← getD_lt m.buckets [] _ hjlt] at hdc
    have hlb : (m.buckets.getD (keyBucketIdx hashf m k) []).length =
        u.length + 1 + w.length := by
      rw [hdecomp]
      simp [List.length_append]
      omega
    have hle : ((m.buckets.getD (keyBucketIdx hashf m k) []).eraseP
        (fun e => memEq m.key_size e.key k)).length = u.length + w.length := by
      rw [herase]
      simp [List.length_append]
    rw [hcount, hdc, hlb]
    simp only [List.length_cons, hle]
    omega
  · intro e he
    replace he : e ∈ (m.buckets.set (keyBucketIdx hashf m k)
        (⟨k.take m.key_size, v.take m.value_size⟩ ::
          (m.buckets.getD (keyBucketIdx hashf m k) []).eraseP
            (fun e => memEq m.key_size e.key k))).flatten := he
    rw [flatten_set _ _ _ hjlt] at he
    show e.key.length = m.key_size ∧ e.value.length = m.value_size
    rcases List.mem_append.mp he with h12 | h3
    · rcases List.mem_append.mp h12 with h1 | h2
      · exact hsizes e (mem_flatten_of_take _ _ _ h1)
      · rcases List.mem_cons.mp h2 with rfl | h2b
        · constructor
          · show (k.take m.key_size).length = m.key_size
            rw [take_of_length_eq hk]
            exact hk
          · show (v.take m.value_size).length = m.value_size
            rw [take_of_length_eq hv]
            exact hv
        · exact hsizes e (hsub e h2b)
    · exact hsizes e (mem_flatten_of_drop _ _ _ h3)
  · intro j2 hj2 e he
    replace hj2 : j2 < m.buckets.length := by
      simpa [List.length_set] using hj2
    by_cases hjj : j2 = keyBucketIdx hashf m k
    · subst hjj
      replace he : e ∈ (⟨k.take m.key_size, v.take m.value_size⟩ : HashElem) ::
          (m.buckets.getD (keyBucketIdx hashf m k) []).eraseP
            (fun e => memEq m.key_size e.key k) := by
        have hset := getD_set_self m.buckets [] (keyBucketIdx hashf m k)
          ((⟨k.take m.key_size, v.take m.value_size⟩ : HashElem) ::
            (m.buckets.getD (keyBucketIdx hashf m k) []).eraseP
              (fun e => memEq m.key_size e.key k)) hjlt
        exact hset ▸ he
      rcases List.mem_cons.mp he with rfl | he2
      · show keyBucketIdx hashf m (k.take m.key_size) = keyBucketIdx hashf m k
        exact keyBucketIdx_take hashf m k
      · show keyBucketIdx hashf m e.key = keyBucketIdx hashf m k
        exact hbucket _ hjlt e (List.mem_of_mem_eraseP he2)
    · replace he : e ∈ m.buckets.getD j2 [] := by
        have hset := getD_set_ne m.buckets [] (keyBucketIdx hashf m k) j2
          ((⟨k.take m.key_size, v.take m.value_size⟩ : HashElem) ::
            (m.buckets.getD (keyBucketIdx hashf m k) []).eraseP
              (fun e => memEq m.key_size e.key k)) (fun h => hjj h.symm)
        exact hset ▸ he
      show keyBucketIdx hashf m e.key = j2
      exact hbucket j2 hj2 e he
  · have hAK : (allKeys { m with
        buckets := m.buckets.set (keyBucketIdx hashf m k)
          (⟨k.take m.key_size, v.take m.value_size⟩ ::
            (m.buckets.getD (keyBucketIdx hashf m k) []).eraseP
              (fun e => memEq m.key_size e.key k)) }) =
      ((m.buckets.take (keyBucketIdx hashf m k)).flatten.map (fun e => e.key)) ++
        (k.take m.key_size ::
          (u.map (fun e => e.key) ++
            (w.map (fun e => e.key) ++
             ((m.buckets.drop (keyBucketIdx hashf m k + 1)).flatten.map
               (fun e => e.key))))) := by
      show (m.buckets.set _ _).flatten.map (fun e => e.key) = _
      rw [flatten_set _ _ _ hjlt, herase]
      simp [List.map_append, List.append_assoc]
    have hAK0 : allKeys m =
      ((m.buckets.take (keyBucketIdx hashf m k)).flatten.map (fun e => e.key)) ++
        (u.map (fun e => e.key) ++
          (k.take m.key_size ::
            (w.map (fun e => e.key) ++
             ((m.buckets.drop (keyBucketIdx hashf m k + 1)).flatten.map
               (fun e => e.key))))) := by
      show m.buckets.flatten.map (fun e => e.key) = _
      conv_lhs => rw [flatten_decomp m.buckets _ hjlt]
      rw [← getD_lt m.buckets [] _ hjlt, hdecomp]
      simp [List.map_append, List.append_assoc, hkey]
    show (allKeys _).Nodup
    rw [hAK]
    rw [hAK0] at hnd
    exact nodup_replace_middle _ _ _ _ _ hnd

/-- A delete that found its key preserves well-formedness. -/
theorem WF_delete_found (hashf : List Nat → Nat) (m : EbpfMapHashtable)
    (K : List Nat) (hWF : WF hashf m) (e0 : HashElem)
    (hfind : hash_bucket_lookup_elem
      (m.buckets.getD (keyBucketIdx hashf m K) []) K m.key_size = some e0) :
    WF hashf
      { m with
        buckets := m.buckets.set (keyBucketIdx hashf m K)
          ((m.buckets.getD (keyBucketIdx hashf m K) []).eraseP
            (fun e => memEq m.key_size e.key K)),
        count := m.count - 1 } := by
  obtain ⟨hblen, ⟨t, ht, hpow⟩, hcount, hsizes, hbucket, hnd⟩ := hWF
  obtain ⟨hkey, u, w, hdecomp, hu, herase⟩ :=
    bucket_found_decomp m K (keyBucketIdx hashf m K) e0 hsizes hfind
  have hjlt : keyBucketIdx hashf m K < m.buckets.length := by
    rw [hblen]
    exact keyBucketIdx_lt hashf m K t hpow
  have hsub : ∀ e ∈ (m.buckets.getD (keyBucketIdx hashf m K) []).eraseP
      (fun e => memEq m.key_size e.key K), e ∈ m.buckets.flatten :=
    fun e he => mem_flatten_of_mem_getD _ _ _ (List.mem_of_mem_eraseP he)
  refine ⟨?_, ⟨t, ht, hpow⟩, ?_, ?_, ?_, ?_⟩
  · show (m.buckets.set _ _).length = m.nbuckets
    rw [List.length_set]
    exact hblen
  · show m.count - 1 = (m.buckets.set _ _).flatten.length
    rw [flatten_length_set _ _ _ hjlt]
    have hdc := flatten_length_decomp m.buckets _ hjlt
    rw [← getD_lt m.buckets [] _ hjlt] at hdc
    have hlb : (m.buckets.getD (keyBucketIdx hashf m K) []).length =
        u.length + 1 + w.length := by
      rw [hdecomp]
      simp [List.length_append]
      omega
    have hle : ((m.buckets.getD (keyBucketIdx hashf m K) []).eraseP
        (fun e => memEq m.key_size e.key K)).length = u.length + w.length := by
      rw [herase]
      simp [List.length_append]
    rw [hcount, hdc, hlb, hle]
    omega
  · intro e he
    replace he : e ∈ (m.buckets.set (keyBucketIdx hashf m K)
        ((m.buckets.getD (keyBucketIdx hashf m K) []).eraseP
          (fun e => memEq m.key_size e.key K))).flatten := he
    rw [flatten_set _ _ _ hjlt] at he
    show e.key.length = m.key_size ∧ e.value.length = m.value_size
    rcases List.mem_append.mp he with h12 | h3
    · rcases List.mem_append.mp h12 with h1 | h2
      · exact hsizes e (mem_flatten_of_take _ _ _ h1)
      · exact hsizes e (hsub e h2)
    · exact hsizes e (mem_flatten_of_drop _ _ _ h3)
  · intro j2 hj2 e he
    replace hj2 : j2 < m.buckets.length := by
      simpa [List.length_set] using hj2
    by_cases hjj : j2 = keyBucketIdx hashf m K
    · subst hjj
      replace he : e ∈ (m.buckets.getD (keyBucketIdx hashf m K) []).eraseP
          (fun e => memEq m.key_size e.key K) := by
        have hset := getD_set_self m.buckets [] (keyBucketIdx hashf m K)
          ((m.buckets.getD (keyBucketIdx hashf m K) []).eraseP
            (fun e => memEq m.key_size e.key K)) hjlt
        exact hset ▸ he
      show keyBucketIdx hashf m e.key = keyBucketIdx hashf m K
      exact hbucket _ hjlt e (List.mem_of_mem_eraseP he)
    · replace he : e ∈ m.buckets.getD j2 [] := by
        have hset := getD_set_ne m.buckets [] (keyBucketIdx hashf m K) j2
          ((m.buckets.getD (keyBucketIdx hashf m K) []).eraseP
            (fun e => memEq m.key_size e.key K)) (fun h => hjj h.symm)
        exact hset ▸ he
      show keyBucketIdx hashf m e.key = j2
      exact hbucket j2 hj2 e he
  · have hAK : (allKeys { m with
        buckets := m.buckets.set (keyBucketIdx hashf m K)
          ((m.buckets.getD (keyBucketIdx hashf m K) []).eraseP
            (fun e => memEq m.key_size e.key K)),
        count := m.count - 1 }) =
      ((m.buckets.take (keyBucketIdx hashf m K)).flatten.map (fun e => e.key)) ++
        (u.map (fun e => e.key) ++
          (w.map (fun e => e.key) ++
           ((m.buckets.drop (keyBucketIdx hashf m K + 1)).flatten.map
             (fun e => e.key)))) := by
      show (m.buckets.set _ _).flatten.map (fun e => e.key) = _
      rw [flatten_set _ _ _ hjlt, herase]
      simp [List.map_append, List.append_assoc]
    have hAK0 : allKeys m =
      ((m.buckets.take (keyBucketIdx hashf m K)).flatten.map (fun e => e.key)) ++
        (u.map (fun e => e.key) ++
          (K.take m.key_size ::
            (w.map (fun e => e.key) ++
             ((m.buckets.drop (keyBucketIdx hashf m K + 1)).flatten.map
               (fun e => e.key))))) := by
      show m.buckets.flatten.map (fun e => e.key) = _
      conv_lhs => rw [flatten_decomp m.buckets _ hjlt]
      rw [← getD_lt m.buckets [] _ hjlt, hdecomp]
      simp [List.map_append, List.append_assoc, hkey]
    show (allKeys _).Nodup
    rw [hAK]
    rw [hAK0] at hnd
    exact nodup_delete_middle _ _ _ _ _ hnd

/-- Update and delete calls with correctly sized buffers preserve
well-formedness. -/
theorem WF_execOp (hashf : List Nat → Nat) (m : EbpfMapHashtable) (op : MapOp)
    (hWF : WF hashf m) (hsz : opSized m.key_size m.value_size op) :
    WF hashf (execOp hashf m op).2 := by
  by_cases herr : (execOp hashf m op).1 = 0
  · cases op with
    | update k v f a =>
      have hstate := update_success_state hashf a m k v f herr
      show WF hashf (hashtable_map_update_elem hashf a m k v f).2
      rw [hstate]
      cases hfind : hash_bucket_lookup_elem
          (m.buckets.getD (keyBucketIdx hashf m k) []) k m.key_size with
      | some e0 => exact WF_update_replace hashf m k v hsz.1 hsz.2 hWF e0 hfind
      | none => exact WF_update_insert hashf m k v hsz.1 hsz.2 hWF hfind
    | delete k =>
      show WF hashf (hashtable_map_delete_elem hashf m k).2
      rw [delete_state_eq]
      cases hfind : hash_bucket_lookup_elem
          (m.buckets.getD (keyBucketIdx hashf m k) []) k m.key_size with
      | some e0 => exact WF_delete_found hashf m k hWF e0 hfind
      | none => exact hWF
  · rw [execOp_error_state hashf m op herr]
    exact hWF

/-- Neither update nor delete touch the configured sizes. -/
theorem execOp_config (hashf : List Nat → Nat) (m : EbpfMapHashtable)
    (op : MapOp) :
    (execOp hashf m op).2.key_size = m.key_size ∧
    (execOp hashf m op).2.value_size = m.value_size := by
  cases op with
  | update k v f a =>
    simp only [execOp, hashtable_map_update_elem]
    split
    · exact ⟨rfl, rfl⟩
    · split
      · exact ⟨rfl, rfl⟩
      · split
        · exact ⟨rfl, rfl⟩
        · split <;> exact ⟨rfl, rfl⟩
  | delete k =>
    simp only [execOp, hashtable_map_delete_elem]
    split <;> exact ⟨rfl, rfl⟩

/-- Just after a successful update the new head element answers the lookup
with the stored value. -/
theorem lookup_after_update_self (hashf : List Nat → Nat) (a : Bool)
    (m : EbpfMapHashtable) (K V : List Nat) (flags : Nat)
    (hWF : WF hashf m) (hV : V.length = m.value_size)
    (hsucc : (hashtable_map_update_elem hashf a m K V flags).1 = 0) :
    hashtable_map_lookup_elem hashf
      (hashtable_map_update_elem hashf a m K V flags).2 K = some V := by
  obtain ⟨hblen, ⟨t, ht, hpow⟩, hcount, hsizes, hbucket, hnd⟩ := hWF
  have hjlt : keyBucketIdx hashf m K < m.buckets.length := by
    rw [hblen]
    exact keyBucketIdx_lt hashf m K t hpow
  rw [update_success_state hashf a m K V flags hsucc]
  cases hfind : hash_bucket_lookup_elem
      (m.buckets.getD (keyBucketIdx hashf m K) []) K m.key_size with
  | some e0 =>
    have hfind2 : List.find? (fun e => memEq m.key_size e.key K)
        (m.buckets.getD (keyBucketIdx hashf m K) []) = some e0 := hfind
    have hmem := List.mem_of_find?_eq_some hfind2
    have hc : m.count ≠ 0 := by
      have hm : e0 ∈ m.buckets.flatten := mem_flatten_of_mem_getD _ _ _ hmem
      rw [hcount]
      intro h0
      rw [List.length_eq_zero] at h0
      rw [h0] at hm
      cases hm
    have hf2 : hash_bucket_lookup_elem
        ((m.buckets.set (keyBucketIdx hashf m K)
          ((⟨K.take m.key_size, V.take m.value_size⟩ : HashElem) ::
            (m.buckets.getD (keyBucketIdx hashf m K) []).eraseP
              (fun e => memEq m.key_size e.key K))).getD (keyBucketIdx hashf m K) [])
        K m.key_size =
        some ⟨K.take m.key_size, V.take m.value_size⟩ := by
      rw [getD_set_self _ _ _ _ hjlt]
      simp only [hash_bucket_lookup_elem, List.find?_cons, memEq_self_take, cond_true]
    have hlook := lookup_eq_some_intro hashf
      { m with
        buckets := m.buckets.set (keyBucketIdx hashf m K)
          ((⟨K.take m.key_size, V.take m.value_size⟩ : HashElem) ::
            (m.buckets.getD (keyBucketIdx hashf m K) []).eraseP
              (fun e => memEq m.key_size e.key K)) }
      K ⟨K.take m.key_size, V.take m.value_size⟩ hc hf2
    conv_rhs => rw [← take_of_length_eq hV]
    exact hlook
  | none =>
    have hf2 : hash_bucket_lookup_elem
        ((m.buckets.set (keyBucketIdx hashf m K)
          ((⟨K.take m.key_size, V.take m.value_size⟩ : HashElem) ::
            m.buckets.getD (keyBucketIdx hashf m K) [])).getD
          (keyBucketIdx hashf m K) [])
        K m.key_size =
        some ⟨K.take m.key_size, V.take m.value_size⟩ := by
      rw [getD_set_self _ _ _ _ hjlt]
      simp only [hash_bucket_lookup_elem, List.find?_cons, memEq_self_take, cond_true]
    have hlook := lookup_eq_some_intro hashf
      { m with
        buckets := m.buckets.set (keyBucketIdx hashf m K)
          ((⟨K.take m.key_size, V.take m.value_size⟩ : HashElem) ::
            m.buckets.getD (keyBucketIdx hashf m K) []),
        count := m.count + 1 }
      K ⟨K.take m.key_size, V.take m.value_size⟩ (Nat.succ_ne_zero _) hf2
    conv_rhs => rw [← take_of_length_eq hV]
    exact hlook

/-- On buffers of the configured length, distinct keys memcmp-differ. -/
theorem memEq_false_of_ne (ks : Nat) (x y : List Nat) (hx : x.length = ks)
    (hy : y.length = ks) (hne : x ≠ y) : memEq ks x y = false := by
  by_contra h
  rw [Bool.not_eq_false] at h
  exact hne ((memEq_eq_iff hx hy).mp h)

/-- One op that is neither a successful update of K nor a delete of K keeps
lookup(K) unchanged. -/
theorem lookup_preserved_step (hashf : List Nat → Nat) (m : EbpfMapHashtable)
    (op : MapOp) (K V : List Nat)
    (hWF : WF hashf m) (hK : K.length = m.key_size)
    (hsz : opSized m.key_size m.value_size op)
    (havoid : opAvoids hashf K m op)
    (hlook : hashtable_map_lookup_elem hashf m K = some V) :
    hashtable_map_lookup_elem hashf (execOp hashf m op).2 K = some V := by
  obtain ⟨hc0, eK, hfK, hval⟩ := lookup_eq_some_elim hashf m K V hlook
  obtain ⟨hblen, ⟨t, ht, hpow⟩, hcount, hsizes, hbucket, hnd⟩ := hWF
  cases op with
  | update k v f a =>
    by_cases herr : (hashtable_map_update_elem hashf a m k v f).1 = 0
    case neg =>
      have herr2 : (execOp hashf m (MapOp.update k v f a)).1 ≠ 0 := herr
      rw [execOp_error_state hashf m _ herr2]
      exact hlook
    case pos =>
      have hkK : k ≠ K := by
        rcases havoid with h | h
        · exact h
        · exact absurd herr h
      have hkl : k.length = m.key_size := hsz.1
      have hjltk : keyBucketIdx hashf m k < m.buckets.length := by
        rw [hblen]
        exact keyBucketIdx_lt hashf m k t hpow
      have hmemne : memEq m.key_size (k.take m.key_size) K = false := by
        rw [memEq_take_left]
        exact memEq_false_of_ne m.key_size k K hkl hK hkK
      have hdisj : ∀ x ∈ m.buckets.getD (keyBucketIdx hashf m k) [],
          (fun e => memEq m.key_size e.key K) x = true →
          (fun e => memEq m.key_size e.key k) x = false := by
        intro x hx hpx
        by_contra h2
        rw [Bool.not_eq_false] at h2
        apply hkK
        have e1 : x.key.take m.key_size = K.take m.key_size := by
          simpa [memEq] using hpx
        have e2 : x.key.take m.key_size = k.take m.key_size := by
          simpa [memEq] using h2
        rw [← take_of_length_eq hkl, ← take_of_length_eq hK, ← e2]
        exact e1
      show hashtable_map_lookup_elem hashf
        (hashtable_map_update_elem hashf a m k v f).2 K = some V
      rw [update_success_state hashf a m k v f herr]
      cases hfindk : hash_bucket_lookup_elem
          (m.buckets.getD (keyBucketIdx hashf m k) []) k m.key_size with
      | some e0 =>
        rw [← hval]
        show hashtable_map_lookup_elem hashf
          { m with
            buckets := m.buckets.set (keyBucketIdx hashf m k)
              ((⟨k.take m.key_size, v.take m.value_size⟩ : HashElem) ::
                (m.buckets.getD (keyBucketIdx hashf m k) []).eraseP
                  (fun e => memEq m.key_size e.key k)) } K = some eK.value
        refine lookup_eq_some_intro hashf _ K eK ?_ ?_
        · exact hc0
        by_cases hjj : keyBucketIdx hashf m K = keyBucketIdx hashf m k
        · show hash_bucket_lookup_elem
            ((m.buckets.set (keyBucketIdx hashf m k)
              ((⟨k.take m.key_size, v.take m.value_size⟩ : HashElem) ::
                (m.buckets.getD (keyBucketIdx hashf m k) []).eraseP
                  (fun e => memEq m.key_size e.key k))).getD
              (keyBucketIdx hashf m K) [])
            K m.key_size = some eK
          rw [hjj, getD_set_self _ _ _ _ hjltk]
          simp only [hash_bucket_lookup_elem, List.find?_cons, hmemne, cond_false]
          rw [find?_eraseP_of_disjoint _ _ _ hdisj, ← hjj]
          exact hfK
        · show hash_bucket_lookup_elem
            ((m.buckets.set (keyBucketIdx hashf m k)
              ((⟨k.take m.key_size, v.take m.value_size⟩ : HashElem) ::
                (m.buckets.getD (keyBucketIdx hashf m k) []).eraseP
                  (fun e => memEq m.key_size e.key k))).getD
              (keyBucketIdx hashf m K) [])
            K m.key_size = some eK
          rw [getD_set_ne _ _ _ _ _ (fun h => hjj h.symm)]
          exact hfK
      | none =>
        rw [← hval]
        show hashtable_map_lookup_elem hashf
          { m with
            buckets := m.buckets.set (keyBucketIdx hashf m k)
              ((⟨k.take m.key_size, v.take m.value_size⟩ : HashElem) ::
                m.buckets.getD (keyBucketIdx hashf m k) []),
            count := m.count + 1 } K = some eK.value
        refine lookup_eq_some_intro hashf _ K eK ?_ ?_
        · exact Nat.succ_ne_zero _
        by_cases hjj : keyBucketIdx hashf m K = keyBucketIdx hashf m k
        · show hash_bucket_lookup_elem
            ((m.buckets.set (keyBucketIdx hashf m k)
              ((⟨k.take m.key_size, v.take m.value_size⟩ : HashElem) ::
                m.buckets.getD (keyBucketIdx hashf m k) [])).getD
              (keyBucketIdx hashf m K) [])
            K m.key_size = some eK
          rw [hjj, getD_set_self _ _ _ _ hjltk]
          simp only [hash_bucket_lookup_elem, List.find?_cons, hmemne, cond_false]
          rw [← hjj]
          exact hfK
        · show hash_bucket_lookup_elem
            ((m.buckets.set (keyBucketIdx hashf m k)
              ((⟨k.take m.key_size, v.take m.value_size⟩ : HashElem) ::
                m.buckets.getD (keyBucketIdx hashf m k) [])).getD
              (keyBucketIdx hashf m K) [])
            K m.key_size = some eK
          rw [getD_set_ne _ _ _ _ _ (fun h => hjj h.symm)]
          exact hfK
  | delete k =>
    have hkK : k ≠ K := havoid
    have hkl : k.length = m.key_size := hsz
    have hjltk : keyBucketIdx hashf m k < m.buckets.length := by
      rw [hblen]
      exact keyBucketIdx_lt hashf m k t hpow
    have hdisj : ∀ x ∈ m.buckets.getD (keyBucketIdx hashf m k) [],
        (fun e => memEq m.key_size e.key K) x = true →
        (fun e => memEq m.key_size e.key k) x = false := by
      intro x hx hpx
      by_contra h2
      rw [Bool.not_eq_false] at h2
      apply hkK
      have e1 : x.key.take m.key_size = K.take m.key_size := by
        simpa [memEq] using hpx
      have e2 : x.key.take m.key_size = k.take m.key_size := by
        simpa [memEq] using h2
      rw [← take_of_length_eq hkl, ← take_of_length_eq hK, ← e2]
      exact e1
    show hashtable_map_lookup_elem hashf
      (hashtable_map_delete_elem hashf m k).2 K = some V
    rw [delete_state_eq]
    cases hfindk : hash_bucket_lookup_elem
        (m.buckets.getD (keyBucketIdx hashf m k) []) k m.key_size with
    | none => exact hlook
    | some e0 =>
      have hfindk2 : List.find? (fun e => memEq m.key_size e.key k)
          (m.buckets.getD (keyBucketIdx hashf m k) []) = some e0 := hfindk
      have he0mem : e0 ∈ m.buckets.flatten :=
        mem_flatten_of_mem_getD _ _ _ (List.mem_of_find?_eq_some hfindk2)
      have hfK2 : List.find? (fun e => memEq m.key_size e.key K)
          (m.buckets.getD (keyBucketIdx hashf m K) []) = some eK := hfK
      have heKmem : eK ∈ m.buckets.flatten :=
        mem_flatten_of_mem_getD _ _ _ (List.mem_of_find?_eq_some hfK2)
      have hne : e0 ≠ eK := by
        intro heq
        apply hkK
        have h1 := List.find?_some hfindk2
        have h2 := List.find?_some hfK2
        have e1 : e0.key.take m.key_size = k.take m.key_size := by
          simpa [memEq] using h1
        have e2 : eK.key.take m.key_size = K.take m.key_size := by
          simpa [memEq] using h2
        rw [heq] at e1
        rw [← take_of_length_eq hkl, ← take_of_length_eq hK, ← e1]
        exact e2
      have hc2 : 2 ≤ m.count := by
        rw [hcount]
        exact two_le_length_of_two_mem _ e0 eK he0mem heKmem hne
      rw [← hval]
      show hashtable_map_lookup_elem hashf
        { m with
          buckets := m.buckets.set (keyBucketIdx hashf m k)
            ((m.buckets.getD (keyBucketIdx hashf m k) []).eraseP
              (fun e => memEq m.key_size e.key k)),
          count := m.count - 1 } K = some eK.value
      refine lookup_eq_some_intro hashf _ K eK ?_ ?_
      · show m.count - 1 ≠ 0
        omega
      by_cases hjj : keyBucketIdx hashf m K = keyBucketIdx hashf m k
      · show hash_bucket_lookup_elem
          ((m.buckets.set (keyBucketIdx hashf m k)
            ((m.buckets.getD (keyBucketIdx hashf m k) []).eraseP
              (fun e => memEq m.key_size e.key k))).getD
            (keyBucketIdx hashf m K) [])
          K m.key_size = some eK
        rw [hjj, getD_set_self _ _ _ _ hjltk]
        simp only [hash_bucket_lookup_elem]
        rw [find?_eraseP_of_disjoint _ _ _ hdisj, ← hjj]
        exact hfK
      · show hash_bucket_lookup_elem
          ((m.buckets.set (keyBucketIdx hashf m k)
            ((m.buckets.getD (keyBucketIdx hashf m k) []).eraseP
              (fun e => memEq m.key_size e.key k))).getD
            (keyBucketIdx hashf m K) [])
          K m.key_size = some eK
        rw [getD_set_ne _ _ _ _ _ (fun h => hjj h.symm)]
        exact hfK

/-- lookup(K) survives any sequence of ops avoiding K. -/
theorem lookup_stable_ops (hashf : List Nat → Nat) (K V : List Nat) :
    ∀ (ops : List MapOp) (m : EbpfMapHashtable), WF hashf m →
      K.length = m.key_size →
      (∀ op ∈ ops, opSized m.key_size m.value_size op) →
      avoidsK hashf K m ops →
      hashtable_map_lookup_elem hashf m K = some V →
      hashtable_map_lookup_elem hashf (execOps hashf m ops) K = some V := by
  intro ops
  induction ops with
  | nil =>
    intro m _ _ _ _ h
    exact h
  | cons op rest ih =>
    intro m hWF hK hsz hav hlook
    obtain ⟨hav1, hav2⟩ := hav
    show hashtable_map_lookup_elem hashf
      (execOps hashf (execOp hashf m op).2 rest) K = some V
    have hop : opSized m.key_size m.value_size op := hsz op (by simp)
    have hstep := lookup_preserved_step hashf m op K V hWF hK hop hav1 hlook
    have hWF2 := WF_execOp hashf m op hWF hop
    have hcfg := execOp_config hashf m op
    refine ih (execOp hashf m op).2 hWF2 ?_ ?_ hav2 hstep
    · rw [hcfg.1]
      exact hK
    · intro o ho
      rw [hcfg.1, hcfg.2]
      exact hsz o (by simp [ho])

/-! ## Theorems -/

/-- C3: when the live-element count equals the configured max_entries, any
further update — in particular an insert of a (max_entries + 1)-th distinct
key — fails with the capacity error EBUSY and returns the map unchanged, so
the max_entries existing keys stay live and retrievable. -/
theorem C3_full_map_update_rejected (hashf : List Nat → Nat) (a : Bool)
    (m : EbpfMapHashtable) (key value : List Nat) (flags : Nat)
    (hfull : m.count = m.max_entries) :
    hashtable_map_update_elem hashf a m key value flags = (EBUSY, m) := by
  simp [hashtable_map_update_elem, hfull]

/-- Witness for C3 at the concrete full map `mFull`. -/
theorem C3_full_map_update_rejected_witness :
    mFull.count = mFull.max_entries ∧
    hashtable_map_update_elem hzero true mFull [1] [9] 0 = (EBUSY, mFull) :=
  ⟨by decide, C3_full_map_update_rejected hzero true mFull [1] [9] 0 (by decide)⟩

/-- C8: any update or delete call that returns a nonzero error code leaves
the map state (count and every bucket list) exactly as it was. -/
theorem C8_error_leaves_map_unchanged (hashf : List Nat → Nat)
    (m : EbpfMapHashtable) (op : MapOp)
    (herr : (execOp hashf m op).1 ≠ 0) : (execOp hashf m op).2 = m :=
  execOp_error_state hashf m op herr

/-- Witness for C8: an update against the full map `mFull` errors (EBUSY)
and leaves it unchanged. -/
theorem C8_error_leaves_map_unchanged_witness :
    (execOp hzero mFull (MapOp.update [1] [9] 0 true)).1 ≠ 0 ∧
    (execOp hzero mFull (MapOp.update [1] [9] 0 true)).2 = mFull :=
  ⟨by decide, C8_error_leaves_map_unchanged hzero mFull _ (by decide)⟩

/-- C10: an update or delete keyed on `K` can modify only the bucket at
index `hash(K) & (nbuckets - 1)`; every other bucket list is returned
unchanged, whether the call succeeds or fails. -/
theorem C10_single_bucket_frame (hashf : List Nat → Nat)
    (m : EbpfMapHashtable) (op : MapOp) (j : Nat)
    (hj : j ≠ keyBucketIdx hashf m (opKey op)) :
    ((execOp hashf m op).2).buckets.getD j [] = m.buckets.getD j [] := by
  have hset : ∀ (b : List HashElem),
      (m.buckets.set (keyBucketIdx hashf m (opKey op)) b).getD j [] =
        m.buckets.getD j [] := by
    intro b
    simp [List.getD_eq_getElem?_getD,
      List.getElem?_set_ne (Ne.symm hj)]
  cases op with
  | update k v f a =>
    simp only [execOp, hashtable_map_update_elem]
    split
    · rfl
    · split
      · rfl
      · split
        · rfl
        · split <;> exact hset _
  | delete k =>
    simp only [execOp, hashtable_map_delete_elem]
    split
    · exact hset _
    · rfl

/-- Witness for C10: deleting key [1] from `mTwo` (bucket 1 under `hfirst`)
leaves bucket 0 unchanged. -/
theorem C10_single_bucket_frame_witness :
    (0 ≠ keyBucketIdx hfirst mTwo (opKey (MapOp.delete [1]))) ∧
    ((execOp hfirst mTwo (MapOp.delete [1])).2).buckets.getD 0 [] =
      mTwo.buckets.getD 0 [] :=
  ⟨by decide, C10_single_bucket_frame hfirst mTwo (MapOp.delete [1]) 0 (by decide)⟩

/-- C7 (code bug): the creation-time overflow check adds `key_size` and
`value_size` in uint32 arithmetic, so the sum wraps before the header size
is added.  With key_size = 2^32 - 1 and value_size = 1 the exact sum
key + value + header exceeds UINT32_MAX, yet init does not fail with E2BIG
(for any header size up to UINT32_MAX). -/
theorem C7_overflow_check_misses_wrapping_sum (h : Nat) (hle : h ≤ UINT32_MAX) :
    2 ^ 32 - 1 + 1 + h > UINT32_MAX ∧
    hashtable_map_init h true (2 ^ 32 - 1) 1 1 ≠ Except.error E2BIG := by
  constructor
  · simp only [UINT32_MAX]
    omega
  · have hmod : (2 ^ 32 - 1 + 1) % 2 ^ 32 = 0 := by norm_num
    have hcond : ¬ ((2 ^ 32 - 1 + 1) % 2 ^ 32 + h > UINT32_MAX) := by
      rw [hmod]
      omega
    unfold hashtable_map_init
    rw [if_neg hcond]
    simp

/-- Witness for C7 with a concrete 48-byte element header. -/
theorem C7_overflow_check_misses_wrapping_sum_witness :
    2 ^ 32 - 1 + 1 + 48 > UINT32_MAX ∧
    hashtable_map_init 48 true (2 ^ 32 - 1) 1 1 ≠ Except.error E2BIG :=
  C7_overflow_check_misses_wrapping_sum 48 (by norm_num [UINT32_MAX])

/-- C2 counterexample: at a map whose live count equals max_entries the
capacity check preempts flag validation, so a must-not-exist update of the
present key [0] does not fail with EEXIST, and a must-exist update of the
absent key [1] does not fail with ENOENT (both fail with EBUSY). -/
theorem C2_capacity_preempts_flag_errors :
    (hash_bucket_lookup_elem (mFull.buckets.getD (keyBucketIdx hzero mFull [0]) [])
      [0] mFull.key_size).isSome = true ∧
    (hashtable_map_update_elem hzero true mFull [0] [9] EBPF_NOEXIST).1 ≠ EEXIST ∧
    hash_bucket_lookup_elem (mFull.buckets.getD (keyBucketIdx hzero mFull [1]) [])
      [1] mFull.key_size = none ∧
    (hashtable_map_update_elem hzero true mFull [1] [9] EBPF_EXIST).1 ≠ ENOENT := by
  decide

/-- C2 (amended): whenever the live count differs from max_entries (so the
capacity check does not preempt flag validation), update with must-not-exist
fails with EEXIST iff the key is present, and update with must-exist fails
with ENOENT iff the key is absent. -/
theorem C2_flag_errors_iff_presence (hashf : List Nat → Nat) (a : Bool)
    (m : EbpfMapHashtable) (K V : List Nat)
    (hcap : m.count ≠ m.max_entries) :
    ((hashtable_map_update_elem hashf a m K V EBPF_NOEXIST).1 = EEXIST ↔
      (hash_bucket_lookup_elem (m.buckets.getD (keyBucketIdx hashf m K) [])
        K m.key_size).isSome = true) ∧
    ((hashtable_map_update_elem hashf a m K V EBPF_EXIST).1 = ENOENT ↔
      hash_bucket_lookup_elem (m.buckets.getD (keyBucketIdx hashf m K) [])
        K m.key_size = none) := by
  constructor
  · rw [update_fst_eq hashf a m K V EBPF_NOEXIST hcap]
    cases hfind : hash_bucket_lookup_elem
        (m.buckets.getD (keyBucketIdx hashf m K) []) K m.key_size with
    | none =>
      have : check_update_flags none EBPF_NOEXIST = 0 := by decide
      rw [this]
      cases a <;> simp [ENOMEM, EEXIST]
    | some e =>
      have hland : Nat.land EBPF_NOEXIST EBPF_NOEXIST ≠ 0 := by decide
      have hchk : check_update_flags (some e) EBPF_NOEXIST = EEXIST := by
        simp [check_update_flags, hland]
      rw [hchk]
      simp [EEXIST]
  · rw [update_fst_eq hashf a m K V EBPF_EXIST hcap]
    cases hfind : hash_bucket_lookup_elem
        (m.buckets.getD (keyBucketIdx hashf m K) []) K m.key_size with
    | none =>
      have : check_update_flags none EBPF_EXIST = ENOENT := by decide
      rw [this]
      simp [ENOENT]
    | some e =>
      have hland : Nat.land EBPF_EXIST EBPF_NOEXIST = 0 := by decide
      have hchk : check_update_flags (some e) EBPF_EXIST = 0 := by
        simp [check_update_flags, hland]
      rw [hchk]
      cases a <;> simp [ENOMEM, ENOENT]

/-- Witness for the amended C2 at `mTwo` (count 2 < max_entries 4),
key [0] being present. -/
theorem C2_flag_errors_iff_presence_witness :
    mTwo.count ≠ mTwo.max_entries ∧
    (((hashtable_map_update_elem hfirst true mTwo [0] [9] EBPF_NOEXIST).1 = EEXIST ↔
      (hash_bucket_lookup_elem (mTwo.buckets.getD (keyBucketIdx hfirst mTwo [0]) [])
        [0] mTwo.key_size).isSome = true) ∧
    ((hashtable_map_update_elem hfirst true mTwo [0] [9] EBPF_EXIST).1 = ENOENT ↔
      hash_bucket_lookup_elem (mTwo.buckets.getD (keyBucketIdx hfirst mTwo [0]) [])
        [0] mTwo.key_size = none)) :=
  ⟨by decide, C2_flag_errors_iff_presence hfirst true mTwo [0] [9] (by decide)⟩

/-- C6 counterexample: on a one-element map (key [0] live), the supplied key
[1] is not present, yet get_next_key([1]) fails not-found while
get_next_key(none) returns [0] — so an absent supplied key is not always
treated like none, and not-found can happen on a non-empty map. -/
theorem C6_single_element_guard_counterexample :
    bucket_lookup_next mFull.key_size [1]
      (mFull.buckets.getD (keyBucketIdx hzero mFull [1]) []) = none ∧
    hashtable_map_get_next_key hzero mFull (some [1]) = none ∧
    hashtable_map_get_next_key hzero mFull none = some [0] ∧
    hashtable_map_get_next_key hzero mFull (some [1]) ≠
      hashtable_map_get_next_key hzero mFull none := by
  decide

/-- C6 (amended): when the supplied key is found in no node of its bucket,
get_next_key restarts the scan from the first bucket and returns exactly
what get_next_key(none) returns — except when the live count is exactly 1,
where the early guard makes any non-none call fail not-found. -/
theorem C6_absent_key_restarts_scan (hashf : List Nat → Nat)
    (m : EbpfMapHashtable) (K : List Nat)
    (habs : bucket_lookup_next m.key_size K
      (m.buckets.getD (keyBucketIdx hashf m K) []) = none) :
    (m.count ≠ 1 → hashtable_map_get_next_key hashf m (some K) =
        hashtable_map_get_next_key hashf m none) ∧
    (m.count = 1 → hashtable_map_get_next_key hashf m (some K) = none) := by
  constructor
  · intro hc
    unfold hashtable_map_get_next_key
    by_cases h0 : m.count = 0
    · simp [h0]
    · have hg1 : ¬ (m.count = 0 ∨ (m.count = 1 ∧ (some K : Option (List Nat)) ≠ none)) := by
        push_neg
        exact ⟨h0, fun h => absurd h hc⟩
      have hg2 : ¬ (m.count = 0 ∨ (m.count = 1 ∧ (none : Option (List Nat)) ≠ none)) := by
        simp [h0]
      rw [if_neg hg1, if_neg hg2]
      simp only [List.getD_eq_getElem?_getD] at habs
      simp [habs]
  · intro hc
    unfold hashtable_map_get_next_key
    rw [if_pos]
    right
    exact ⟨hc, by simp⟩

/-- Witness for the amended C6 at `mTwo` with absent key [5]. -/
theorem C6_absent_key_restarts_scan_witness :
    bucket_lookup_next mTwo.key_size [5]
      (mTwo.buckets.getD (keyBucketIdx hfirst mTwo [5]) []) = none ∧
    ((mTwo.count ≠ 1 → hashtable_map_get_next_key hfirst mTwo (some [5]) =
        hashtable_map_get_next_key hfirst mTwo none) ∧
    (mTwo.count = 1 → hashtable_map_get_next_key hfirst mTwo (some [5]) = none)) :=
  ⟨by decide, C6_absent_key_restarts_scan hfirst mTwo [5] (by decide)⟩

/-- C4: delete(K) returns success whether or not K is present (deleting an
absent key is a no-op, not an error), and a lookup of K performed
immediately after the delete returns absent. -/
theorem C4_delete_always_succeeds_then_absent (hashf : List Nat → Nat)
    (m : EbpfMapHashtable) (K : List Nat) (hWF : WF hashf m) :
    (hashtable_map_delete_elem hashf m K).1 = 0 ∧
    hashtable_map_lookup_elem hashf
      (hashtable_map_delete_elem hashf m K).2 K = none := by
  obtain ⟨hblen, ⟨t, ht, hpow⟩, hcount, hsizes, hbucket, hnd⟩ := hWF
  refine ⟨?_, ?_⟩
  · simp only [hashtable_map_delete_elem]
    split <;> rfl
  · rw [delete_state_eq]
    cases hfind : hash_bucket_lookup_elem
        (m.buckets.getD (keyBucketIdx hashf m K) []) K m.key_size with
    | none =>
      exact lookup_eq_none_intro hashf m K hfind
    | some e =>
      apply lookup_eq_none_intro
      have hjlt : keyBucketIdx hashf m K < m.buckets.length := by
        rw [hblen]
        exact keyBucketIdx_lt hashf m K t hpow
      show hash_bucket_lookup_elem
          ((m.buckets.set (keyBucketIdx hashf m K)
            ((m.buckets.getD (keyBucketIdx hashf m K) []).eraseP
              (fun e2 => memEq m.key_size e2.key K))).getD
            (keyBucketIdx hashf m K) [])
          K m.key_size = none
      rw [getD_set_self _ _ _ _ hjlt]
      exact find?_eraseP_self_none m.key_size K _
        (fun e2 he2 => (hsizes e2 (mem_flatten_of_mem_getD _ _ _ he2)).1)
        (bucket_keys_nodup m _ hnd)

/-- Witness for C4 at the concrete map `mTwo`, key [0]. -/
theorem C4_delete_always_succeeds_then_absent_witness :
    WF hfirst mTwo ∧
    ((hashtable_map_delete_elem hfirst mTwo [0]).1 = 0 ∧
     hashtable_map_lookup_elem hfirst
       (hashtable_map_delete_elem hfirst mTwo [0]).2 [0] = none) :=
  ⟨by decide, C4_delete_always_succeeds_then_absent hfirst mTwo [0] (by decide)⟩

/-- C1: if update(K, V, default flags) succeeds, lookup(K) returns V, and
keeps returning V across any subsequent sequence of correctly sized
update/delete calls in which no op is a successful update of K or a delete
of K. -/
theorem C1_lookup_returns_value_until_next_touch (hashf : List Nat → Nat)
    (m : EbpfMapHashtable) (K V : List Nat) (ops : List MapOp)
    (hWF : WF hashf m) (hK : K.length = m.key_size)
    (hV : V.length = m.value_size)
    (hsucc : (hashtable_map_update_elem hashf true m K V 0).1 = 0)
    (hsz : ∀ op ∈ ops, opSized m.key_size m.value_size op)
    (hav : avoidsK hashf K (hashtable_map_update_elem hashf true m K V 0).2 ops) :
    hashtable_map_lookup_elem hashf
      (execOps hashf (hashtable_map_update_elem hashf true m K V 0).2 ops) K
      = some V := by
  have h1 := lookup_after_update_self hashf true m K V 0 hWF hV hsucc
  have hWF1 : WF hashf (hashtable_map_update_elem hashf true m K V 0).2 :=
    WF_execOp hashf m (MapOp.update K V 0 true) hWF ⟨hK, hV⟩
  have hcfg2 : (hashtable_map_update_elem hashf true m K V 0).2.key_size
      = m.key_size ∧
      (hashtable_map_update_elem hashf true m K V 0).2.value_size
      = m.value_size :=
    execOp_config hashf m (MapOp.update K V 0 true)
  refine lookup_stable_ops hashf K V ops _ hWF1 ?_ ?_ hav h1
  · rw [hcfg2.1]
    exact hK
  · intro o ho
    rw [hcfg2.1, hcfg2.2]
    exact hsz o ho

/-- Witness for C1: insert [0] ↦ [5] into the empty map, then run an
unrelated insert and delete of key [1]; lookup([0]) still returns [5]. -/
theorem C1_lookup_returns_value_until_next_touch_witness :
    (WF hfirst mEmpty ∧ ([0] : List Nat).length = mEmpty.key_size ∧
      ([5] : List Nat).length = mEmpty.value_size ∧
      (hashtable_map_update_elem hfirst true mEmpty [0] [5] 0).1 = 0 ∧
      (∀ op ∈ [MapOp.update [1] [6] 0 true, MapOp.delete [1]],
        opSized mEmpty.key_size mEmpty.value_size op) ∧
      avoidsK hfirst [0]
        (hashtable_map_update_elem hfirst true mEmpty [0] [5] 0).2
        [MapOp.update [1] [6] 0 true, MapOp.delete [1]]) ∧
    hashtable_map_lookup_elem hfirst
      (execOps hfirst (hashtable_map_update_elem hfirst true mEmpty [0] [5] 0).2
        [MapOp.update [1] [6] 0 true, MapOp.delete [1]]) [0] = some [5] :=
  ⟨⟨by decide, by decide, by decide, by decide, by decide, by decide⟩,
   C1_lookup_returns_value_until_next_touch hfirst mEmpty [0] [5]
     [MapOp.update [1] [6] 0 true, MapOp.delete [1]]
     (by decide) (by decide) (by decide) (by decide) (by decide) (by decide)⟩

/-- The get_first_key scan returns the first key of the flattened slice. -/
theorem scan_buckets_eq_head (ks : Nat) (bs : List (List HashElem))
    (hlen : ∀ e ∈ bs.flatten, e.key.length = ks) :
    scan_buckets ks bs = (bs.flatten.map (fun e => e.key)).head? := by
  induction bs with
  | nil => rfl
  | cons b rest ih =>
    cases b with
    | nil =>
      show scan_buckets ks rest = _
      rw [ih (fun e he => hlen e (by simp [List.flatten_cons, he]))]
      simp [List.flatten_cons]
    | cons e b2 =>
      show some (e.key.take ks) = _
      have hle : e.key.length = ks := hlen e (by simp [List.flatten_cons])
      rw [take_of_length_eq hle]
      simp [List.flatten_cons]

/-- bucket_lookup_next on a bucket split at its first match returns the head
of the remainder. -/
theorem bucket_lookup_next_found (ks : Nat) (k : List Nat) (u w : List HashElem)
    (e : HashElem) (hu : ∀ x ∈ u, memEq ks x.key k = false)
    (he : memEq ks e.key k = true) :
    bucket_lookup_next ks k (u ++ e :: w) = some w.head? := by
  induction u with
  | nil =>
    show bucket_lookup_next ks k (e :: w) = _
    simp only [bucket_lookup_next]
    rw [if_pos he]
  | cons x xs ih =>
    have hx := hu x (by simp)
    show bucket_lookup_next ks k (x :: (xs ++ e :: w)) = _
    simp only [bucket_lookup_next]
    rw [if_neg (by simp [hx])]
    exact ih (fun y hy => hu y (by simp [hy]))

/-- get_next_key(none) returns the head of the scan-ordered live key list. -/
theorem get_next_key_none_eq (hashf : List Nat → Nat) (m : EbpfMapHashtable)
    (hWF : WF hashf m) :
    hashtable_map_get_next_key hashf m none = (allKeys m).head? := by
  obtain ⟨hblen, hpow2, hcount, hsizes, hbucket, hnd⟩ := hWF
  unfold hashtable_map_get_next_key
  by_cases h0 : m.count = 0
  · rw [if_pos (by left; exact h0)]
    have hfl : m.buckets.flatten.length = 0 := by
      rw [← hcount]
      exact h0
    rw [List.length_eq_zero] at hfl
    simp [allKeys, hfl]
  · rw [if_neg (by simp [h0])]
    show scan_buckets m.key_size m.buckets = _
    exact scan_buckets_eq_head m.key_size m.buckets (fun e he => (hsizes e he).1)

/-- get_next_key(k) for a live key k returns the key after k in the
scan-ordered live key list (not-found when k is last or the sole element). -/
theorem get_next_key_some_eq (hashf : List Nat → Nat) (m : EbpfMapHashtable)
    (hWF : WF hashf m) (k : List Nat) (l1 l2 : List (List Nat))
    (hsplit : allKeys m = l1 ++ k :: l2) :
    hashtable_map_get_next_key hashf m (some k) = l2.head? := by
  obtain ⟨hblen, ⟨t, ht, hpow⟩, hcount, hsizes, hbucket, hnd⟩ := hWF
  have hcount2 : m.count = l1.length + 1 + l2.length := by
    have hlm : (allKeys m).length = m.buckets.flatten.length := List.length_map _ _
    rw [hcount, ← hlm, hsplit]
    simp [List.length_append]
    omega
  have hkmem : k ∈ allKeys m := by
    rw [hsplit]
    simp
  obtain ⟨ek, hekmem, hekkey⟩ := List.mem_map.mp hkmem
  have hekkey2 : ek.key = k := hekkey
  obtain ⟨l, hl, hel⟩ := List.mem_flatten.mp hekmem
  obtain ⟨n, hn⟩ := List.mem_iff_get.mp hl
  have heknb : ek ∈ m.buckets.getD n.1 [] := by
    rw [getD_lt _ _ _ n.2]
    exact hn ▸ hel
  have hkl : k.length = m.key_size := by
    rw [← hekkey2]
    exact (hsizes ek hekmem).1
  have hidx : keyBucketIdx hashf m k = n.1 := by
    rw [← hekkey2]
    exact hbucket n.1 n.2 ek heknb
  have hjlt : keyBucketIdx hashf m k < m.buckets.length := by
    rw [hidx]
    exact n.2
  by_cases h1 : m.count = 1
  · have hl2 : l2 = [] := by
      have : l2.length = 0 := by omega
      exact List.length_eq_zero.mp this
    rw [hl2]
    unfold hashtable_map_get_next_key
    rw [if_pos]
    · rfl
    · right
      exact ⟨h1, by simp⟩
  · have hc0 : m.count ≠ 0 := by omega
    unfold hashtable_map_get_next_key
    have hguard : ¬ (m.count = 0 ∨
        (m.count = 1 ∧ (some k : Option (List Nat)) ≠ none)) := by
      rintro (h | ⟨h, _⟩)
      · exact hc0 h
      · exact h1 h
    rw [if_neg hguard]
    show (match bucket_lookup_next m.key_size k
        (m.buckets.getD (keyBucketIdx hashf m k) []) with
      | none => scan_buckets m.key_size m.buckets
      | some (some next_elem) => some (next_elem.key.take m.key_size)
      | some none =>
        scan_buckets m.key_size (m.buckets.drop (keyBucketIdx hashf m k + 1)))
      = l2.head?
    cases hfind : List.find? (fun e => memEq m.key_size e.key k)
        (m.buckets.getD (keyBucketIdx hashf m k) []) with
    | none =>
      exfalso
      have hno := List.find?_eq_none.mp hfind ek (by rw [hidx]; exact heknb)
      apply hno
      show memEq m.key_size ek.key k = true
      rw [hekkey2]
      simp [memEq]
    | some e1 =>
      have hp1 := List.find?_some hfind
      have hmem1 := List.mem_of_find?_eq_some hfind
      have he1len : e1.key.length = m.key_size :=
        (hsizes e1 (mem_flatten_of_mem_getD _ _ _ hmem1)).1
      have he1key : e1.key = k := by
        have hq : e1.key.take m.key_size = k.take m.key_size := by
          simpa [memEq] using hp1
        rw [← take_of_length_eq he1len, hq, take_of_length_eq hkl]
      obtain ⟨u, w, hbdecomp, hu⟩ := find?_decomp _ _ _ hfind
      have hbln := bucket_lookup_next_found m.key_size k u w e1
        (fun x hx => hu x hx) (by rw [he1key]; simp [memEq])
      have hAK0 : allKeys m =
          (((m.buckets.take (keyBucketIdx hashf m k)).flatten.map
              (fun e => e.key)) ++ u.map (fun e => e.key)) ++
            (k :: (w.map (fun e => e.key) ++
              ((m.buckets.drop (keyBucketIdx hashf m k + 1)).flatten.map
                (fun e => e.key)))) := by
        show m.buckets.flatten.map (fun e => e.key) = _
        conv_lhs => rw [flatten_decomp m.buckets _ hjlt]
        rw [← getD_lt m.buckets [] _ hjlt, hbdecomp]
        simp [List.map_append, List.append_assoc, he1key]
      have huniq := nodup_split_unique k l1 l2
        (((m.buckets.take (keyBucketIdx hashf m k)).flatten.map
            (fun e => e.key)) ++ u.map (fun e => e.key))
        (w.map (fun e => e.key) ++
          ((m.buckets.drop (keyBucketIdx hashf m k + 1)).flatten.map
            (fun e => e.key)))
        (by rw [← hsplit]; exact hnd)
        (hsplit.symm.trans hAK0)
      rw [hbdecomp]
      cases w with
      | nil =>
        rw [hbln]
        show scan_buckets m.key_size
          (m.buckets.drop (keyBucketIdx hashf m k + 1)) = l2.head?
        rw [huniq.2]
        simp only [List.map_nil, List.nil_append]
        exact scan_buckets_eq_head m.key_size _
          (fun e he => (hsizes e (mem_flatten_of_drop _ _ _ he)).1)
      | cons ne ws =>
        rw [hbln]
        show some (ne.key.take m.key_size) = l2.head?
        have hnemem : ne ∈ m.buckets.getD (keyBucketIdx hashf m k) [] := by
          rw [hbdecomp]
          simp
        have hnelen : ne.key.length = m.key_size :=
          (hsizes ne (mem_flatten_of_mem_getD _ _ _ hnemem)).1
        rw [take_of_length_eq hnelen, huniq.2]
        simp

/-- Feeding keys back into get_next_key walks down the scan-ordered suffix. -/
theorem enumFrom_tail (hashf : List Nat → Nat) (m : EbpfMapHashtable)
    (hWF : WF hashf m) :
    ∀ (l2 l1 : List (List Nat)) (k : List Nat) (fuel : Nat),
      allKeys m = l1 ++ k :: l2 → l2.length < fuel →
      enumFrom hashf m fuel (some k) = l2 := by
  intro l2
  induction l2 with
  | nil =>
    intro l1 k fuel hsplit hfuel
    cases fuel with
    | zero => omega
    | succ f =>
      show (match hashtable_map_get_next_key hashf m (some k) with
        | none => []
        | some k2 => k2 :: enumFrom hashf m f (some k2)) = []
      rw [get_next_key_some_eq hashf m hWF k l1 [] hsplit]
      rfl
  | cons k2 l2' ih =>
    intro l1 k fuel hsplit hfuel
    cases fuel with
    | zero => omega
    | succ f =>
      show (match hashtable_map_get_next_key hashf m (some k) with
        | none => []
        | some k3 => k3 :: enumFrom hashf m f (some k3)) = k2 :: l2'
      rw [get_next_key_some_eq hashf m hWF k l1 (k2 :: l2') hsplit]
      show k2 :: enumFrom hashf m f (some k2) = k2 :: l2'
      rw [ih (l1 ++ [k]) k2 f (by rw [hsplit]; simp) (by simp at hfuel; omega)]

/-- C5: with no concurrent mutation, enumerating with get_next_key from none
and feeding each returned key back in until not-found yields exactly the
current live key set — in scan order, with no duplicates and no omissions. -/
theorem C5_enumeration_yields_exactly_live_keys (hashf : List Nat → Nat)
    (m : EbpfMapHashtable) (hWF : WF hashf m) :
    enumerate hashf m = allKeys m ∧ (enumerate hashf m).Nodup := by
  have hcopy := hWF
  have hmain : enumerate hashf m = allKeys m := by
    unfold enumerate
    show (match hashtable_map_get_next_key hashf m none with
      | none => []
      | some k => k :: enumFrom hashf m m.count (some k)) = allKeys m
    rw [get_next_key_none_eq hashf m hWF]
    cases hak : allKeys m with
    | nil => rfl
    | cons k0 rest =>
      show k0 :: enumFrom hashf m m.count (some k0) = k0 :: rest
      have hlen2 : rest.length < m.count := by
        obtain ⟨hblen, hpow2, hcount, hsz2, hbk, hnd⟩ := hcopy
        have hcl : m.count = (allKeys m).length := by
          rw [hcount]
          exact (List.length_map _ _).symm
        rw [hak] at hcl
        simp [hcl]
      rw [enumFrom_tail hashf m hWF rest [] k0 m.count hak hlen2]
  refine ⟨hmain, ?_⟩
  rw [hmain]
  obtain ⟨hblen, hpow2, hcount, hsz2, hbk, hnd⟩ := hWF
  exact hnd

/-- Witness for C5 at the concrete two-element map `mTwo`. -/
theorem C5_enumeration_yields_exactly_live_keys_witness :
    WF hfirst mTwo ∧
    (enumerate hfirst mTwo = allKeys mTwo ∧ (enumerate hfirst mTwo).Nodup) :=
  ⟨by decide, C5_enumeration_yields_exactly_live_keys hfirst mTwo (by decide)⟩
